import Mathlib

/-!
Verification of the RitualRPA state-tracking, pairing and session
orchestration core.

The definitions below are a shallow embedding of the Python sources
`src/state_manager.py`, `src/account_manager.py` and `main.py` (the
package under `src/` of the repository).  External collaborators
(filesystem, clock, the AdsPower HTTP API and the browser automation
driver) are modelled as explicit parameters: the current date and
clock time are passed as strings, persistence is modelled by the
structured document that `_save_state` writes, and the remote calls
(`start_browser`, `stop_browser_async`, the Discord action executor)
are modelled by Boolean outcomes supplied by an environment record.
-/

/-- JSON-like values, used to model the Python dictionaries that
`dataclasses.asdict` produces and `json.dump` persists. -/
inductive JVal where
  | jnum (n : Nat)
  | jstr (s : String)
  | jbool (b : Bool)
  | jarr (xs : List JVal)
  | jobj (kvs : List (String × JVal))

/-- `d.get(k)` on a Python dict modelled as an association list. -/
def jget (d : List (String × JVal)) (k : String) : Option JVal :=
  (d.find? (fun kv => kv.1 == k)).map Prod.snd

/-- `d.get(k, default)` for an integer field. -/
def jgetNat (d : List (String × JVal)) (k : String) (dflt : Nat) : Nat :=
  match jget d k with
  | some (.jnum n) => n
  | _ => dflt

/-- `d.get(k, default)` for a string field. -/
def jgetStr (d : List (String × JVal)) (k : String) (dflt : String) : String :=
  match jget d k with
  | some (.jstr s) => s
  | _ => dflt

/-- `d.get(k, [])` for a list-of-strings field. -/
def jgetStrList (d : List (String × JVal)) (k : String) : List String :=
  match jget d k with
  | some (.jarr xs) => xs.map (fun v => match v with | .jstr s => s | _ => "")
  | _ => []

/-- `d.get(k, [])` for a raw list field (the `actions` log is kept as
raw dictionaries by `DailyStats.from_dict`). -/
def jgetArr (d : List (String × JVal)) (k : String) : List JVal :=
  match jget d k with
  | some (.jarr xs) => xs
  | _ => []

/-- `AccountProgress` dataclass of `src/state_manager.py`. -/
structure AccountProgress where
  bless_received : Nat := 0
  curse_received : Nat := 0
  bless_given_today : Nat := 0
  curse_given_today : Nat := 0
  last_action_date : String := ""
  last_action_time : String := ""
deriving DecidableEq, Repr

instance : Inhabited AccountProgress := ⟨{}⟩

/-- `AccountProgress.to_dict` (via `dataclasses.asdict`). -/
def AccountProgress.to_dict (a : AccountProgress) : List (String × JVal) :=
  [("bless_received", .jnum a.bless_received),
   ("curse_received", .jnum a.curse_received),
   ("bless_given_today", .jnum a.bless_given_today),
   ("curse_given_today", .jnum a.curse_given_today),
   ("last_action_date", .jstr a.last_action_date),
   ("last_action_time", .jstr a.last_action_time)]

/-- `AccountProgress.from_dict`. -/
def AccountProgress.from_dict (d : List (String × JVal)) : AccountProgress :=
  { bless_received := jgetNat d "bless_received" 0
    curse_received := jgetNat d "curse_received" 0
    bless_given_today := jgetNat d "bless_given_today" 0
    curse_given_today := jgetNat d "curse_given_today" 0
    last_action_date := jgetStr d "last_action_date" ""
    last_action_time := jgetStr d "last_action_time" "" }

/-- `AccountProgress.total_given_today`. -/
def AccountProgress.total_given_today (a : AccountProgress) : Nat :=
  a.bless_given_today + a.curse_given_today

/-- `AccountProgress.reset_daily`. -/
def AccountProgress.reset_daily (a : AccountProgress) : AccountProgress :=
  { a with bless_given_today := 0, curse_given_today := 0 }

/-- `DailyStats` dataclass.  The chronological `actions` log is kept as
raw JSON dictionaries, exactly as the Python dataclass stores raw
`Dict[str, Any]` entries. -/
structure DailyStats where
  date : String
  accounts_processed : List String := []
  total_bless : Nat := 0
  total_curse : Nat := 0
  actions : List JVal := []

/-- `DailyStats.to_dict` (via `dataclasses.asdict`). -/
def DailyStats.to_dict (d : DailyStats) : List (String × JVal) :=
  [("date", .jstr d.date),
   ("accounts_processed", .jarr (d.accounts_processed.map .jstr)),
   ("total_bless", .jnum d.total_bless),
   ("total_curse", .jnum d.total_curse),
   ("actions", .jarr d.actions)]

/-- `DailyStats.from_dict`. -/
def DailyStats.from_dict (d : List (String × JVal)) : DailyStats :=
  { date := jgetStr d "date" ""
    accounts_processed := jgetStrList d "accounts_processed"
    total_bless := jgetNat d "total_bless" 0
    total_curse := jgetNat d "total_curse" 0
    actions := jgetArr d "actions" }

/-- The `settings` dictionary of `StateManager`.  Python keeps it as a
dict; the three numeric keys and the `created_at` timestamp are the
fields it ever holds. -/
structure Settings where
  daily_limit_per_account : Nat := 5
  target_bless : Nat := 10
  target_curse : Nat := 10
  created_at : String := ""
deriving DecidableEq, Repr

/-- In-memory state of `StateManager`: accounts map, daily stats map
(insertion-ordered Python dicts modelled as association lists) and
settings, plus the `_dirty` flag. -/
structure StateMgr where
  accounts : List (String × AccountProgress) := []
  daily_stats : List (String × DailyStats) := []
  settings : Settings := {}
  dirty : Bool := false

/-- Look an account up in the accounts dict. -/
def StateMgr.lookupAcc (s : StateMgr) (name : String) : Option AccountProgress :=
  (s.accounts.find? (fun kv => kv.1 == name)).map Prod.snd

/-- Update the value stored under an existing key (in place, keeping
dict order, as Python dict assignment does). -/
def updEntry (l : List (String × AccountProgress)) (name : String)
    (f : AccountProgress → AccountProgress) : List (String × AccountProgress) :=
  l.map (fun kv => if kv.1 = name then (kv.1, f kv.2) else kv)

/-- `StateManager._ensure_account_exists`: create a zero record for a
missing account (appended, as Python dict insertion does) and mark the
state dirty. -/
def StateMgr.ensure_account_exists (s : StateMgr) (name : String) : StateMgr :=
  if (s.accounts.find? (fun kv => kv.1 == name)).isSome then s
  else { s with accounts := s.accounts ++ [(name, {})], dirty := true }

/-- `StateManager._reset_daily_counters_if_needed`: zero the today
counters of every account whose `last_action_date` is non-empty and
differs from `today`; mark dirty when any account was reset. -/
def StateMgr.reset_daily_counters_if_needed (s : StateMgr) (today : String) : StateMgr :=
  let needsReset : String × AccountProgress → Bool := fun kv =>
    kv.2.last_action_date != "" && kv.2.last_action_date != today
  let accounts := s.accounts.map (fun kv =>
    if needsReset kv then (kv.1, kv.2.reset_daily) else kv)
  { s with accounts := accounts,
           dirty := s.dirty || s.accounts.any needsReset }

/-- `StateManager.can_give_action_today` (the Boolean part of the
returned pair).  It first runs the rollover reset and lazily creates
the account, mutating the state. -/
def StateMgr.can_give_action_today (s : StateMgr) (today name : String) :
    StateMgr × Bool :=
  let s1 := s.reset_daily_counters_if_needed today
  let s2 := s1.ensure_account_exists name
  let acc := (s2.lookupAcc name).getD {}
  (s2, decide (acc.total_given_today < s2.settings.daily_limit_per_account))

/-- `StateManager.needs_bless`. -/
def StateMgr.needs_bless (s : StateMgr) (name : String) : StateMgr × (Bool × Nat) :=
  let s1 := s.ensure_account_exists name
  let acc := (s1.lookupAcc name).getD {}
  let remaining := s1.settings.target_bless - acc.bless_received
  (s1, (decide (remaining > 0), remaining))

/-- `StateManager.needs_curse`. -/
def StateMgr.needs_curse (s : StateMgr) (name : String) : StateMgr × (Bool × Nat) :=
  let s1 := s.ensure_account_exists name
  let acc := (s1.lookupAcc name).getD {}
  let remaining := s1.settings.target_curse - acc.curse_received
  (s1, (decide (remaining > 0), remaining))

/-- `StateManager._get_or_create_daily_stats`. -/
def StateMgr.get_or_create_daily_stats (s : StateMgr) (today : String) : StateMgr :=
  if (s.daily_stats.find? (fun kv => kv.1 == today)).isSome then s
  else { s with daily_stats := s.daily_stats ++ [(today, { date := today })],
                dirty := true }

/-- Update today's `DailyStats` entry in place. -/
def StateMgr.updDaily (s : StateMgr) (today : String) (f : DailyStats → DailyStats) :
    StateMgr :=
  let stats := s.daily_stats.map (fun kv => if kv.1 = today then (kv.1, f kv.2) else kv)
  { s with daily_stats := stats }

/-- `StateManager.record_action`.  `today` and `nowTime` stand for
`date.today().isoformat()` and `datetime.now().strftime("%H:%M:%S")`.
The trailing `_save_state` is modelled by clearing the dirty flag (the
document it writes is produced by `save_doc` below). -/
def StateMgr.record_action (s : StateMgr) (today nowTime : String)
    (giver_name receiver_name action_type : String) (success : Bool) : StateMgr :=
  let s1 := (s.ensure_account_exists giver_name).ensure_account_exists receiver_name
  let s2 :=
    if success then
      if action_type = "bless" then
        let t := updEntry s1.accounts giver_name
          (fun a => { a with bless_given_today := a.bless_given_today + 1 })
        let t2 := updEntry t receiver_name
          (fun a => { a with bless_received := a.bless_received + 1 })
        { s1 with accounts := t2 }
      else if action_type = "curse" then
        let t := updEntry s1.accounts giver_name
          (fun a => { a with curse_given_today := a.curse_given_today + 1 })
        let t2 := updEntry t receiver_name
          (fun a => { a with curse_received := a.curse_received + 1 })
        { s1 with accounts := t2 }
      else s1
    else s1
  let t3 := updEntry s2.accounts giver_name
    (fun a => { a with last_action_date := today, last_action_time := nowTime })
  let s3 := { s2 with accounts := t3 }
  let s4 := s3.get_or_create_daily_stats today
  let s5 := s4.updDaily today (fun d =>
    if giver_name ∈ d.accounts_processed then d
    else { d with accounts_processed := d.accounts_processed ++ [giver_name] })
  let s6 :=
    if success then
      if action_type = "bless" then
        s5.updDaily today (fun d => { d with total_bless := d.total_bless + 1 })
      else if action_type = "curse" then
        s5.updDaily today (fun d => { d with total_curse := d.total_curse + 1 })
      else s5
    else s5
  let s7 := s6.updDaily today (fun d =>
    { d with actions := d.actions ++
        [.jobj [("time", .jstr nowTime), ("giver", .jstr giver_name),
                ("receiver", .jstr receiver_name), ("action", .jstr action_type),
                ("success", .jbool success)]] })
  { s7 with dirty := false }

/-- One logical `record_action` call: giver, receiver, action kind,
success flag, and the wall-clock time string of the call. -/
structure RecordCall where
  giver : String
  receiver : String
  action : String
  success : Bool
  time : String

/-- Replay a same-day sequence of `record_action` calls. -/
def StateMgr.record_run (s : StateMgr) (today : String) (calls : List RecordCall) :
    StateMgr :=
  calls.foldl (fun st c => st.record_action today c.time c.giver c.receiver c.action c.success) s

/-- The daily-limit invariant of spec §8: no account has given more
than `daily_limit_per_account` actions today. -/
def StateMgr.dailyLimitInv (s : StateMgr) : Prop :=
  ∀ kv ∈ s.accounts, kv.2.total_given_today ≤ s.settings.daily_limit_per_account

/-- A `record_action` call guarded by `can_give_action_today`, the
calling pattern the planner and orchestrator establish: the action is
only recorded when the giver has remaining daily capacity. -/
def StateMgr.guarded_record_action (s : StateMgr) (today : String) (c : RecordCall) :
    StateMgr :=
  let (s1, ok) := s.can_give_action_today today c.giver
  if ok then s1.record_action today c.time c.giver c.receiver c.action c.success else s1

/-- Replay a same-day sequence of guarded `record_action` calls. -/
def StateMgr.guarded_record_run (s : StateMgr) (today : String)
    (calls : List RecordCall) : StateMgr :=
  calls.foldl (fun st c => st.guarded_record_action today c) s

/-- Keys of the accounts dict are pairwise distinct (always true of a
Python dict) and the daily-limit invariant holds. -/
def StateMgr.WF (s : StateMgr) : Prop :=
  (s.accounts.map Prod.fst).Nodup ∧ s.dailyLimitInv

lemma mem_updEntry_ex {l : List (String × AccountProgress)} {name : String}
    {f : AccountProgress → AccountProgress} {kv : String × AccountProgress}
    (h : kv ∈ updEntry l name f) :
    ∃ kv₀ ∈ l, kv.1 = kv₀.1 ∧
      ((kv₀.1 = name ∧ kv.2 = f kv₀.2) ∨ (kv₀.1 ≠ name ∧ kv.2 = kv₀.2)) := by
  unfold updEntry at h
  obtain ⟨kv₀, h₀, hkv⟩ := List.mem_map.mp h
  refine ⟨kv₀, h₀, ?_⟩
  by_cases hn : kv₀.1 = name
  · simp [hn] at hkv
    exact ⟨by simp [← hkv, hn], Or.inl ⟨hn, by simp [← hkv]⟩⟩
  · simp [hn] at hkv
    exact ⟨by simp [← hkv], Or.inr ⟨hn, by simp [← hkv]⟩⟩

lemma updEntry_keys (l : List (String × AccountProgress)) (name : String)
    (f : AccountProgress → AccountProgress) :
    (updEntry l name f).map Prod.fst = l.map Prod.fst := by
  unfold updEntry
  rw [List.map_map]
  apply List.map_congr_left
  intro kv _
  by_cases h : kv.1 = name <;> simp [Function.comp, h]

lemma find_eq_of_nodup {l : List (String × AccountProgress)} {kv : String × AccountProgress}
    (hnd : (l.map Prod.fst).Nodup) (hmem : kv ∈ l) {a : AccountProgress}
    (hfind : (l.find? (fun x => x.1 == kv.1)).map Prod.snd = some a) :
    kv.2 = a := by
  induction l with
  | nil => cases hmem
  | cons x xs ih =>
    rw [List.map_cons, List.nodup_cons] at hnd
    rcases List.mem_cons.mp hmem with h | h
    · subst h
      rw [List.find?_cons_of_pos _ (by simp)] at hfind
      simpa using hfind
    · by_cases hx : x.1 = kv.1
      · exact absurd (hx ▸ List.mem_map_of_mem Prod.fst h) hnd.1
      · rw [List.find?_cons_of_neg _ (by simpa using hx)] at hfind
        exact ih hnd.2 h hfind

lemma ensure_keys_sub (s : StateMgr) (name : String) :
    ∀ k ∈ s.accounts.map Prod.fst, k ∈ (s.ensure_account_exists name).accounts.map Prod.fst := by
  intro k hk
  unfold StateMgr.ensure_account_exists
  split <;> simp_all

lemma ensure_nodup {s : StateMgr} (name : String)
    (h : (s.accounts.map Prod.fst).Nodup) :
    ((s.ensure_account_exists name).accounts.map Prod.fst).Nodup := by
  unfold StateMgr.ensure_account_exists
  split
  · exact h
  · next hfind =>
    have hnotin : name ∉ s.accounts.map Prod.fst := by
      intro hmem
      obtain ⟨kv, hkv, hfst⟩ := List.mem_map.mp hmem
      have : (s.accounts.find? (fun x => x.1 == name)).isSome :=
        List.find?_isSome.mpr ⟨kv, hkv, by simp [hfst]⟩
      exact hfind this
    simpa using List.Nodup.append h (by simp) (by simpa using hnotin)

lemma ensure_settings (s : StateMgr) (name : String) :
    (s.ensure_account_exists name).settings = s.settings := by
  unfold StateMgr.ensure_account_exists
  split <;> rfl

lemma key_mem_iff_find {l : List (String × AccountProgress)} {n : String} :
    (l.find? (fun kv => kv.1 == n)).isSome ↔ n ∈ l.map Prod.fst := by
  rw [List.find?_isSome]
  constructor
  · rintro ⟨kv, hkv, hp⟩
    exact List.mem_map.mpr ⟨kv, hkv, by simpa using hp⟩
  · intro h
    obtain ⟨kv, hkv, hfst⟩ := List.mem_map.mp h
    exact ⟨kv, hkv, by simp [hfst]⟩

lemma ensure_mem {s : StateMgr} {name : String} {kv : String × AccountProgress}
    (h : kv ∈ (s.ensure_account_exists name).accounts) :
    kv ∈ s.accounts ∨ (kv = (name, {}) ∧ name ∉ s.accounts.map Prod.fst) := by
  unfold StateMgr.ensure_account_exists at h
  split at h
  · exact Or.inl h
  · next hfind =>
    rcases List.mem_append.mp h with h | h
    · exact Or.inl h
    · refine Or.inr ⟨by simpa using h, fun hmem => hfind (key_mem_iff_find.mpr hmem)⟩

lemma reset_settings (s : StateMgr) (today : String) :
    (s.reset_daily_counters_if_needed today).settings = s.settings := rfl

lemma reset_keys (s : StateMgr) (today : String) :
    (s.reset_daily_counters_if_needed today).accounts.map Prod.fst
      = s.accounts.map Prod.fst := by
  unfold StateMgr.reset_daily_counters_if_needed
  simp only [List.map_map]
  apply List.map_congr_left
  intro kv _
  by_cases h : (kv.2.last_action_date != "" && kv.2.last_action_date != today) = true <;>
    simp [Function.comp, h]

lemma reset_mem {s : StateMgr} {today : String} {kv : String × AccountProgress}
    (h : kv ∈ (s.reset_daily_counters_if_needed today).accounts) :
    ∃ kv₀ ∈ s.accounts, kv.1 = kv₀.1 ∧
      (kv.2 = kv₀.2 ∨ kv.2 = kv₀.2.reset_daily) := by
  unfold StateMgr.reset_daily_counters_if_needed at h
  obtain ⟨kv₀, h₀, hkv⟩ := List.mem_map.mp h
  refine ⟨kv₀, h₀, ?_⟩
  by_cases hc : (kv₀.2.last_action_date != "" && kv₀.2.last_action_date != today) = true
  · simp [hc] at hkv
    exact ⟨by simp [← hkv], Or.inr (by simp [← hkv])⟩
  · simp [hc] at hkv
    exact ⟨by simp [← hkv], Or.inl (by simp [← hkv])⟩

lemma reset_inv {s : StateMgr} (today : String) (h : s.dailyLimitInv) :
    (s.reset_daily_counters_if_needed today).dailyLimitInv := by
  intro kv hkv
  obtain ⟨kv₀, h₀, _, hval⟩ := reset_mem hkv
  rw [show (s.reset_daily_counters_if_needed today).settings = s.settings from rfl]
  rcases hval with hval | hval
  · rw [hval]; exact h kv₀ h₀
  · rw [hval]
    simp [AccountProgress.reset_daily, AccountProgress.total_given_today]

lemma ensure_inv {s : StateMgr} (name : String) (h : s.dailyLimitInv) :
    (s.ensure_account_exists name).dailyLimitInv := by
  intro kv hkv
  rw [ensure_settings]
  rcases ensure_mem hkv with hm | ⟨hm, _⟩
  · exact h kv hm
  · rw [hm]
    simp [AccountProgress.total_given_today]

lemma get_or_create_daily_accounts (s : StateMgr) (today : String) :
    (s.get_or_create_daily_stats today).accounts = s.accounts := by
  unfold StateMgr.get_or_create_daily_stats
  split <;> rfl

lemma get_or_create_daily_settings (s : StateMgr) (today : String) :
    (s.get_or_create_daily_stats today).settings = s.settings := by
  unfold StateMgr.get_or_create_daily_stats
  split <;> rfl

lemma updDaily_accounts (s : StateMgr) (today : String) (f : DailyStats → DailyStats) :
    (s.updDaily today f).accounts = s.accounts := rfl

lemma updDaily_settings (s : StateMgr) (today : String) (f : DailyStats → DailyStats) :
    (s.updDaily today f).settings = s.settings := rfl

lemma ensure_of_mem {s : StateMgr} {name : String}
    (h : name ∈ s.accounts.map Prod.fst) : s.ensure_account_exists name = s := by
  unfold StateMgr.ensure_account_exists
  rw [if_pos (key_mem_iff_find.mpr h)]

lemma ensure_self_mem (s : StateMgr) (name : String) :
    name ∈ (s.ensure_account_exists name).accounts.map Prod.fst := by
  unfold StateMgr.ensure_account_exists
  split
  · next h => exact key_mem_iff_find.mp h
  · simp

lemma record_action_settings (s : StateMgr) (today nowTime g r a : String) (suc : Bool) :
    (s.record_action today nowTime g r a suc).settings = s.settings := by
  unfold StateMgr.record_action StateMgr.updDaily StateMgr.get_or_create_daily_stats
  dsimp only
  split_ifs <;> simp [ensure_settings]

lemma record_action_accounts (s : StateMgr) (today nowTime g r a : String) (suc : Bool) :
    (s.record_action today nowTime g r a suc).accounts =
      updEntry
        (if suc then
          if a = "bless" then
            updEntry (updEntry ((s.ensure_account_exists g).ensure_account_exists r).accounts g
                (fun x => { x with bless_given_today := x.bless_given_today + 1 })) r
              (fun x => { x with bless_received := x.bless_received + 1 })
          else if a = "curse" then
            updEntry (updEntry ((s.ensure_account_exists g).ensure_account_exists r).accounts g
                (fun x => { x with curse_given_today := x.curse_given_today + 1 })) r
              (fun x => { x with curse_received := x.curse_received + 1 })
          else ((s.ensure_account_exists g).ensure_account_exists r).accounts
        else ((s.ensure_account_exists g).ensure_account_exists r).accounts)
        g (fun x => { x with last_action_date := today, last_action_time := nowTime }) := by
  unfold StateMgr.record_action StateMgr.updDaily StateMgr.get_or_create_daily_stats
  dsimp only
  split_ifs <;> rfl

lemma record_action_keys (s : StateMgr) (today nowTime g r a : String) (suc : Bool) :
    (s.record_action today nowTime g r a suc).accounts.map Prod.fst =
      ((s.ensure_account_exists g).ensure_account_exists r).accounts.map Prod.fst := by
  rw [record_action_accounts]
  split_ifs <;> simp [updEntry_keys]

lemma record_action_inv {s : StateMgr} (today nowTime g r a : String) (suc : Bool)
    (hinv : s.dailyLimitInv)
    (hg : ∀ kv ∈ s.accounts, kv.1 = g →
      kv.2.total_given_today < s.settings.daily_limit_per_account)
    (hgmem : g ∈ s.accounts.map Prod.fst) :
    (s.record_action today nowTime g r a suc).dailyLimitInv := by
  intro kv hkv
  rw [record_action_settings]
  rw [record_action_accounts, ensure_of_mem hgmem] at hkv
  -- strip the final date/time update (totals unchanged)
  obtain ⟨kv₁, h₁, hkey₁, hval₁⟩ := mem_updEntry_ex hkv
  have htot₁ : kv.2.total_given_today = kv₁.2.total_given_today := by
    rcases hval₁ with ⟨_, hv⟩ | ⟨_, hv⟩ <;>
      simp [hv, AccountProgress.total_given_today]
  -- analyse the conditional increment block
  have key : ∃ kv₂ ∈ (s.ensure_account_exists r).accounts, kv₁.1 = kv₂.1 ∧
      kv₁.2.total_given_today ≤ kv₂.2.total_given_today + (if kv₂.1 = g then 1 else 0) := by
    split_ifs at h₁ with h₁s h₁b h₁c
    · -- successful bless
      obtain ⟨kv₂, h₂, hkey₂, hval₂⟩ := mem_updEntry_ex h₁
      obtain ⟨kv₃, h₃, hkey₃, hval₃⟩ := mem_updEntry_ex h₂
      refine ⟨kv₃, h₃, by rw [hkey₂, hkey₃], ?_⟩
      have h12 : kv₁.2.total_given_today = kv₂.2.total_given_today := by
        rcases hval₂ with ⟨_, hv⟩ | ⟨_, hv⟩ <;>
          simp [hv, AccountProgress.total_given_today]
      rcases hval₃ with ⟨hk, hv⟩ | ⟨hk, hv⟩
      · rw [h12, hv, if_pos hk]
        simp [AccountProgress.total_given_today]
        omega
      · rw [h12, hv, if_neg hk]
        omega
    · -- successful curse
      obtain ⟨kv₂, h₂, hkey₂, hval₂⟩ := mem_updEntry_ex h₁
      obtain ⟨kv₃, h₃, hkey₃, hval₃⟩ := mem_updEntry_ex h₂
      refine ⟨kv₃, h₃, by rw [hkey₂, hkey₃], ?_⟩
      have h12 : kv₁.2.total_given_today = kv₂.2.total_given_today := by
        rcases hval₂ with ⟨_, hv⟩ | ⟨_, hv⟩ <;>
          simp [hv, AccountProgress.total_given_today]
      rcases hval₃ with ⟨hk, hv⟩ | ⟨hk, hv⟩
      · rw [h12, hv, if_pos hk]
        simp [AccountProgress.total_given_today]
        omega
      · rw [h12, hv, if_neg hk]
        omega
    · exact ⟨kv₁, h₁, rfl, by split_ifs <;> omega⟩
    · exact ⟨kv₁, h₁, rfl, by split_ifs <;> omega⟩
  obtain ⟨kv₂, h₂, _, hbound⟩ := key
  rw [htot₁]
  rcases ensure_mem h₂ with hm | ⟨hm, habsent⟩
  · by_cases hkg : kv₂.1 = g
    · have := hg kv₂ hm hkg
      rw [if_pos hkg] at hbound
      omega
    · have := hinv kv₂ hm
      rw [if_neg hkg] at hbound
      omega
  · -- freshly created receiver record: zero counters, and its key is
    -- not the giver key (the giver key is present, r was absent)
    have hz : kv₂.2.total_given_today = 0 := by rw [hm]; rfl
    have hrg : kv₂.1 ≠ g := by
      rw [hm]
      intro hcontra
      simp only at hcontra
      exact habsent (hcontra ▸ hgmem)
    rw [if_neg hrg] at hbound
    omega

instance (s : StateMgr) : Decidable s.dailyLimitInv :=
  decidable_of_iff
    (∀ kv ∈ s.accounts, kv.2.total_given_today ≤ s.settings.daily_limit_per_account)
    Iff.rfl

lemma guarded_step_WF {s : StateMgr} (today : String) (c : RecordCall) (h : s.WF) :
    (s.guarded_record_action today c).WF := by
  obtain ⟨hnd, hinv⟩ := h
  unfold StateMgr.guarded_record_action StateMgr.can_give_action_today
  dsimp only
  have hnd2 : (((s.reset_daily_counters_if_needed today).ensure_account_exists
      c.giver).accounts.map Prod.fst).Nodup := by
    apply ensure_nodup
    rw [reset_keys]
    exact hnd
  have hinv2 : ((s.reset_daily_counters_if_needed today).ensure_account_exists
      c.giver).dailyLimitInv := ensure_inv _ (reset_inv _ hinv)
  have hgmem := ensure_self_mem (s.reset_daily_counters_if_needed today) c.giver
  split_ifs with hok
  · refine ⟨?_, ?_⟩
    · rw [record_action_keys]
      exact ensure_nodup _ (ensure_nodup _ hnd2)
    · rw [decide_eq_true_iff] at hok
      apply record_action_inv _ _ _ _ _ _ hinv2 _ hgmem
      intro kv hkv hkey
      have hfindsome := key_mem_iff_find.mpr hgmem
      obtain ⟨v, hv⟩ := Option.isSome_iff_exists.mp hfindsome
      have hlook : ((s.reset_daily_counters_if_needed today).ensure_account_exists
          c.giver).lookupAcc c.giver = some v.2 := by
        unfold StateMgr.lookupAcc
        rw [hv]
        rfl
      have hval : kv.2 = v.2 := by
        apply find_eq_of_nodup hnd2 hkv
        rw [hkey, hv]
        rfl
      rw [hval]
      simpa [hlook] using hok
  · exact ⟨hnd2, hinv2⟩

lemma guarded_run_WF (s : StateMgr) (today : String) (calls : List RecordCall)
    (h : s.WF) : (s.guarded_record_run today calls).WF := by
  induction calls generalizing s with
  | nil => exact h
  | cons c cs ih =>
    have hstep := guarded_step_WF today c h
    simpa [StateMgr.guarded_record_run, List.foldl] using
      ih (s.guarded_record_action today c) hstep

/-- C1 (amended).  `record_action` alone does not enforce the daily
limit; the invariant `bless_given_today + curse_given_today ≤
daily_limit_per_account` is preserved by every same-day sequence of
`record_action` calls in which each call is guarded by a passing
`can_give_action_today` check (the calling pattern of the planner and
orchestrator); starting from any well-formed state satisfying the
invariant it still holds after the whole guarded sequence. -/
theorem C1_daily_limit_guarded (s : StateMgr) (today : String) (calls : List RecordCall)
    (hnd : (s.accounts.map Prod.fst).Nodup) (hinv : s.dailyLimitInv) :
    (s.guarded_record_run today calls).dailyLimitInv :=
  (guarded_run_WF s today calls ⟨hnd, hinv⟩).2

/-- Witness for C1: a fresh state with the default daily limit 5 and
seven guarded successful bless actions by one giver still satisfies
the invariant. -/
theorem C1_daily_limit_witness :
    (StateMgr.guarded_record_run {} "2026-10-12"
        (List.replicate 7 ⟨"alice", "bob", "bless", true, "12:00:00"⟩)).dailyLimitInv :=
  C1_daily_limit_guarded {} "2026-10-12"
    (List.replicate 7 ⟨"alice", "bob", "bless", true, "12:00:00"⟩)
    (by decide) (by decide)

/-- C1 counterexample: the claim as stated is false.  Six successful
unguarded `record_action` calls on the same day by one giver drive its
`bless_given_today` to 6, exceeding the default
`daily_limit_per_account` of 5. -/
theorem C1_daily_limit_counterexample :
    ¬ (StateMgr.record_run {} "2026-10-12"
        (List.replicate 6 ⟨"alice", "bob", "bless", true, "12:00:00"⟩)).dailyLimitInv := by
  decide

lemma from_dict_to_dict (a : AccountProgress) :
    AccountProgress.from_dict a.to_dict = a := by
  simp +decide [AccountProgress.from_dict, AccountProgress.to_dict,
    jgetNat, jgetStr, jget, List.find?]

lemma daily_from_dict_to_dict (d : DailyStats) :
    DailyStats.from_dict d.to_dict = d := by
  simp +decide [DailyStats.from_dict, DailyStats.to_dict,
    jgetNat, jgetStr, jgetStrList, jgetArr, jget, List.find?, List.map_map]
  cases d with
  | mk date ap tb tc ac =>
    simp
    induction ap with
    | nil => rfl
    | cons x xs ih => simp [ih]

/-- The structured document `StateManager._save_state` writes to the
state file: settings, serialized accounts map, serialized daily stats
map, and the `last_updated` timestamp. -/
structure StateDoc where
  settings : Settings
  accounts : List (String × List (String × JVal))
  daily_stats : List (String × List (String × JVal))
  last_updated : String

/-- `StateManager._save_state`: the document written for state `s` at
wall-clock time `now`. -/
def StateMgr.save_doc (s : StateMgr) (now : String) : StateDoc :=
  { settings := s.settings
    accounts := s.accounts.map (fun kv => (kv.1, kv.2.to_dict))
    daily_stats := s.daily_stats.map (fun kv => (kv.1, kv.2.to_dict))
    last_updated := now }

/-- `StateManager._load_state` on an existing readable file: parse the
settings, accounts and daily stats, then run
`_reset_daily_counters_if_needed` — the state a fresh `StateManager`
holds right after construction on this document on day `today`. -/
def load_state (doc : StateDoc) (today : String) : StateMgr :=
  let s : StateMgr :=
    { accounts := doc.accounts.map (fun kv => (kv.1, AccountProgress.from_dict kv.2))
      daily_stats := doc.daily_stats.map (fun kv => (kv.1, DailyStats.from_dict kv.2))
      settings := doc.settings
      dirty := false }
  s.reset_daily_counters_if_needed today

/-- C3.  Day rollover on load: an account stored with a non-empty
`last_action_date` different from today and nonzero today-counters
comes out of `load()` with both today-counters zeroed while its
lifetime received counters are exactly the values stored in the file. -/
theorem C3_day_rollover_on_load (doc : StateDoc) (today name : String)
    (d : List (String × JVal))
    (hfind : doc.accounts.find? (fun kv => kv.1 == name) = some (name, d))
    (hdate : (AccountProgress.from_dict d).last_action_date ≠ "")
    (hdiff : (AccountProgress.from_dict d).last_action_date ≠ today)
    (hnz : (AccountProgress.from_dict d).total_given_today ≠ 0) :
    (load_state doc today).lookupAcc name =
      some { bless_received := (AccountProgress.from_dict d).bless_received
             curse_received := (AccountProgress.from_dict d).curse_received
             bless_given_today := 0
             curse_given_today := 0
             last_action_date := (AccountProgress.from_dict d).last_action_date
             last_action_time := (AccountProgress.from_dict d).last_action_time } := by
  unfold load_state StateMgr.reset_daily_counters_if_needed StateMgr.lookupAcc
  dsimp only
  rw [List.map_map, List.find?_map]
  have hpred : ((fun kv => kv.1 == name) ∘
      ((fun kv => if (kv.2.last_action_date != "" && kv.2.last_action_date != today) = true
          then (kv.1, kv.2.reset_daily) else kv) ∘
        (fun kv => (kv.1, AccountProgress.from_dict kv.2)))) =
      (fun kv : String × List (String × JVal) => kv.1 == name) := by
    funext kv
    by_cases hc : ((AccountProgress.from_dict kv.2).last_action_date != "" &&
        (AccountProgress.from_dict kv.2).last_action_date != today) = true <;>
      simp [Function.comp, hc]
  rw [hpred, hfind]
  have hc : ((AccountProgress.from_dict d).last_action_date != "" &&
      (AccountProgress.from_dict d).last_action_date != today) = true := by
    simp [hdate, hdiff]
  simp [Function.comp, hdate, hdiff, AccountProgress.reset_daily]

/-- A concrete persisted document with one stale account, used to
witness C3. -/
def sampleDoc : StateDoc :=
  { settings := {}
    accounts := [("alice",
      [("bless_received", .jnum 3), ("curse_received", .jnum 2),
       ("bless_given_today", .jnum 4), ("curse_given_today", .jnum 1),
       ("last_action_date", .jstr "2026-10-11"),
       ("last_action_time", .jstr "09:00:00")])]
    daily_stats := []
    last_updated := "t" }

/-- Witness for C3 at a concrete stored account. -/
theorem C3_day_rollover_witness :
    (load_state sampleDoc "2026-10-12").lookupAcc "alice" =
      some { bless_received := 3, curse_received := 2,
             bless_given_today := 0, curse_given_today := 0,
             last_action_date := "2026-10-11", last_action_time := "09:00:00" } := by
  have h := C3_day_rollover_on_load sampleDoc "2026-10-12" "alice"
    [("bless_received", .jnum 3), ("curse_received", .jnum 2),
     ("bless_given_today", .jnum 4), ("curse_given_today", .jnum 1),
     ("last_action_date", .jstr "2026-10-11"), ("last_action_time", .jstr "09:00:00")]
    rfl (by decide) (by decide) (by decide)
  simpa using h

/-- C8.  Serialization round-trip: when every stored account's
`last_action_date` is today or empty, saving with `_save_state` and
constructing a `StateManager` on the written document on the same day
reproduces the accounts map (all four counters), the daily stats and
the settings exactly. -/
theorem C8_save_load_roundtrip (s : StateMgr) (now today : String)
    (h : ∀ kv ∈ s.accounts, kv.2.last_action_date = today ∨ kv.2.last_action_date = "") :
    (load_state (s.save_doc now) today).accounts = s.accounts ∧
    (load_state (s.save_doc now) today).daily_stats = s.daily_stats ∧
    (load_state (s.save_doc now) today).settings = s.settings := by
  unfold load_state StateMgr.save_doc StateMgr.reset_daily_counters_if_needed
  dsimp only
  refine ⟨?_, ?_, rfl⟩
  · rw [List.map_map, List.map_map]
    refine Eq.trans (List.map_congr_left ?_) (List.map_id _)
    intro kv hkv
    have hrt := from_dict_to_dict kv.2
    have hcond : (kv.2.last_action_date != "" && kv.2.last_action_date != today) = false := by
      rcases h kv hkv with hd | hd <;> simp [hd]
    simp [Function.comp, hrt, hcond]
  · rw [List.map_map]
    refine Eq.trans (List.map_congr_left ?_) (List.map_id _)
    intro kv _
    simp [Function.comp, daily_from_dict_to_dict]

/-- A concrete in-memory state whose accounts were all touched today,
used to witness C8. -/
def sampleProgress : AccountProgress :=
  { bless_received := 2, curse_received := 1, bless_given_today := 3,
    curse_given_today := 1, last_action_date := "2026-10-12",
    last_action_time := "08:00:00" }

/-- The daily stats entry of the concrete C8 state. -/
def sampleDaily : DailyStats :=
  { date := "2026-10-12", accounts_processed := ["alice"], total_bless := 1,
    total_curse := 0, actions := [] }

/-- The settings of the concrete C8 state. -/
def sampleSettings : Settings :=
  { daily_limit_per_account := 7, target_bless := 9, target_curse := 8,
    created_at := "c" }

/-- The concrete C8 state itself. -/
def sampleState : StateMgr :=
  { accounts := [("alice", sampleProgress)]
    daily_stats := [("2026-10-12", sampleDaily)]
    settings := sampleSettings
    dirty := false }

/-- Witness for C8 at a concrete state. -/
theorem C8_save_load_roundtrip_witness :
    (load_state (sampleState.save_doc "now") "2026-10-12").settings.daily_limit_per_account
      = 7 := by
  have h := C8_save_load_roundtrip sampleState "now" "2026-10-12" (by decide)
  rw [h.2.2]
  rfl

/-- A block record stored in `blocked_accounts.json` /
`unauthorized_accounts.json` by `AccountManager.block_account`. -/
structure BlockRecord where
  account_name : String
  adspower_id : String
  discord_username : Option String
  reason : String
  blocked_at : String
deriving DecidableEq, Repr

/-- The blocking-related state of `AccountManager`: the two block
dictionaries (keyed by account name) and the `account_blocking.enabled`
configuration flag. -/
structure AccountMgr where
  blocked_accounts : List (String × BlockRecord) := []
  unauthorized_accounts : List (String × BlockRecord) := []
  block_accounts_enabled : Bool := true
deriving DecidableEq, Repr

/-- `AccountManager.is_account_unauthorized`: name keyed in the
unauthorized dict, or (when the id argument is truthy, i.e. non-empty)
some stored record carries this `adspower_id`. -/
def AccountMgr.is_account_unauthorized (m : AccountMgr) (name adspower_id : String) :
    Bool :=
  if (m.unauthorized_accounts.find? (fun kv => kv.1 == name)).isSome then true
  else if adspower_id != "" then
    m.unauthorized_accounts.any (fun kv => kv.2.adspower_id == adspower_id)
  else false

/-- `AccountManager.is_account_channel_blocked`. -/
def AccountMgr.is_account_channel_blocked (m : AccountMgr) (name adspower_id : String) :
    Bool :=
  if (m.blocked_accounts.find? (fun kv => kv.1 == name)).isSome then true
  else if adspower_id != "" then
    m.blocked_accounts.any (fun kv => kv.2.adspower_id == adspower_id)
  else false

/-- `AccountManager.is_account_blocked`: either block category. -/
def AccountMgr.is_account_blocked (m : AccountMgr) (name adspower_id : String) :
    Bool :=
  m.is_account_unauthorized name adspower_id ||
    m.is_account_channel_blocked name adspower_id

/-- Observable outcome of `AccountManager.block_account`: the new
manager state plus whether each block file was written. -/
structure BlockOut where
  mgr : AccountMgr
  wroteChannelFile : Bool
  wroteUnauthFile : Bool
deriving DecidableEq, Repr

/-- `AccountManager._block_unauthorized_account` (reached from
`block_account` with `block_type="unauthorized"`).  `now` stands for
`datetime.now().isoformat()`. -/
def AccountMgr.block_unauthorized_account (m : AccountMgr)
    (name adspower_id reason : String) (discord_username : Option String)
    (now : String) : BlockOut :=
  if m.is_account_unauthorized name adspower_id then ⟨m, false, false⟩
  else
    ⟨{ m with unauthorized_accounts := m.unauthorized_accounts ++
        [(name, ⟨name, adspower_id, discord_username, reason, now⟩)] },
      false, true⟩

/-- `AccountManager._block_channel_account` (the default branch of
`block_account`). -/
def AccountMgr.block_channel_account (m : AccountMgr)
    (name adspower_id reason : String) (discord_username : Option String)
    (now : String) : BlockOut :=
  if m.is_account_channel_blocked name adspower_id then ⟨m, false, false⟩
  else
    ⟨{ m with blocked_accounts := m.blocked_accounts ++
        [(name, ⟨name, adspower_id, discord_username, reason, now⟩)] },
      true, false⟩

/-- `AccountManager.block_account`. -/
def AccountMgr.block_account (m : AccountMgr) (name adspower_id reason : String)
    (discord_username : Option String) (block_type : String) (now : String) :
    BlockOut :=
  if !m.block_accounts_enabled then ⟨m, false, false⟩
  else if block_type = "unauthorized" then
    m.block_unauthorized_account name adspower_id reason discord_username now
  else
    m.block_channel_account name adspower_id reason discord_username now

lemma find_append_last_isSome (l : List (String × BlockRecord))
    (e : String × BlockRecord) (n : String) (h : e.1 = n) :
    ((l ++ [e]).find? (fun kv => kv.1 == n)).isSome = true := by
  rw [List.find?_isSome]
  exact ⟨e, by simp, by simp [h]⟩

lemma any_append_last_id (l : List (String × BlockRecord))
    (e : String × BlockRecord) (x : String) (h : e.2.adspower_id = x) :
    (l ++ [e]).any (fun kv => kv.2.adspower_id == x) = true :=
  List.any_eq_true.mpr ⟨e, by simp, by simp [h]⟩

/-- C7.  Unauthorized blocking deduplicates: with blocking enabled and
the account not yet marked unauthorized, the first
`block_account(..., block_type="unauthorized")` appends exactly one
record (keyed by the account name, carrying the given reason and
timestamp), and any second unauthorized call that matches it — same
name, or same non-empty profile identifier — leaves the manager state
completely unchanged and writes nothing, so the original record's
reason and blocked_at survive. -/
theorem C7_unauthorized_block_dedup (m : AccountMgr)
    (name adspower_id reason : String) (du : Option String) (now : String)
    (henabled : m.block_accounts_enabled = true)
    (hfresh : m.is_account_unauthorized name adspower_id = false) :
    (m.block_account name adspower_id reason du "unauthorized" now).mgr.unauthorized_accounts
        = m.unauthorized_accounts ++
          [(name, ⟨name, adspower_id, du, reason, now⟩)] ∧
    (∀ name2 id2 reason2 du2 now2,
      (name2 = name ∨ (id2 = adspower_id ∧ id2 ≠ "")) →
      ((m.block_account name adspower_id reason du "unauthorized" now).mgr.block_account
          name2 id2 reason2 du2 "unauthorized" now2) =
        ⟨(m.block_account name adspower_id reason du "unauthorized" now).mgr,
          false, false⟩) := by
  have hm1 : (m.block_account name adspower_id reason du "unauthorized" now).mgr =
      { m with unauthorized_accounts := m.unauthorized_accounts ++
          [(name, ⟨name, adspower_id, du, reason, now⟩)] } := by
    unfold AccountMgr.block_account AccountMgr.block_unauthorized_account
    rw [henabled]
    simp [hfresh]
  constructor
  · rw [hm1]
  · intro name2 id2 reason2 du2 now2 hmatch
    set M1 := (m.block_account name adspower_id reason du "unauthorized" now).mgr
      with hM1def
    have hM1u : M1.unauthorized_accounts = m.unauthorized_accounts ++
        [(name, ⟨name, adspower_id, du, reason, now⟩)] := by
      rw [hm1]
    have hM1e : M1.block_accounts_enabled = true := by
      rw [hm1]
      exact henabled
    have hunauth : M1.is_account_unauthorized name2 id2 = true := by
      unfold AccountMgr.is_account_unauthorized
      rw [hM1u]
      rcases hmatch with hn | ⟨hid, hid0⟩
      · rw [if_pos (find_append_last_isSome _ _ _ (by simp [hn]))]
      · by_cases hkeyed : ((m.unauthorized_accounts ++
            [((name, ⟨name, adspower_id, du, reason, now⟩) : String × BlockRecord)]).find?
              (fun kv => kv.1 == name2)).isSome = true
        · rw [if_pos hkeyed]
        · rw [if_neg (by simpa using hkeyed), if_pos (by simpa using hid0)]
          exact any_append_last_id _ _ _ (by simp [hid])
    unfold AccountMgr.block_account AccountMgr.block_unauthorized_account
    rw [hM1e, hunauth]
    simp

/-- Witness for C7 at a concrete manager state: blocking `alice` once,
then re-blocking by her profile id under a different name, changes
nothing further. -/
theorem C7_unauthorized_block_dedup_witness :
    (AccountMgr.block_account {} "alice" "p77" "no auth" none "unauthorized"
        "t1").mgr.unauthorized_accounts
      = [("alice", ⟨"alice", "p77", none, "no auth", "t1"⟩)] ∧
    ((AccountMgr.block_account {} "alice" "p77" "no auth" none "unauthorized"
        "t1").mgr.block_account "alice2" "p77" "again" none "unauthorized" "t2") =
      ⟨(AccountMgr.block_account {} "alice" "p77" "no auth" none "unauthorized"
        "t1").mgr, false, false⟩ := by
  have h := C7_unauthorized_block_dedup {} "alice" "p77" "no auth" none "t1"
    rfl rfl
  exact ⟨by simpa using h.1, h.2 "alice2" "p77" "again" none "t2" (Or.inr ⟨rfl, by decide⟩)⟩

/-- C9.  Identifier-based block lookup crosses account names: for any
non-empty identifier, `is_account_blocked` answers true whenever some
record in either block dictionary stores that `adspower_id`, whatever
name is asked about. -/
theorem C9_blocked_by_shared_id (m : AccountMgr) (n x : String)
    (hx : x ≠ "")
    (hrec : (∃ kv ∈ m.unauthorized_accounts, kv.2.adspower_id = x) ∨
            (∃ kv ∈ m.blocked_accounts, kv.2.adspower_id = x)) :
    m.is_account_blocked n x = true := by
  unfold AccountMgr.is_account_blocked
  rcases hrec with ⟨kv, hkv, hid⟩ | ⟨kv, hkv, hid⟩
  · apply Bool.or_eq_true_iff.mpr
    left
    unfold AccountMgr.is_account_unauthorized
    by_cases hkeyed : ((m.unauthorized_accounts.find? (fun kv => kv.1 == n)).isSome) = true
    · rw [if_pos hkeyed]
    · rw [if_neg (by simpa using hkeyed), if_pos (by simpa using hx)]
      exact List.any_eq_true.mpr ⟨kv, hkv, by simp [hid]⟩
  · apply Bool.or_eq_true_iff.mpr
    right
    unfold AccountMgr.is_account_channel_blocked
    by_cases hkeyed : ((m.blocked_accounts.find? (fun kv => kv.1 == n)).isSome) = true
    · rw [if_pos hkeyed]
    · rw [if_neg (by simpa using hkeyed), if_pos (by simpa using hx)]
      exact List.any_eq_true.mpr ⟨kv, hkv, by simp [hid]⟩

/-- The manager state used to witness C9 and C10: `alice` is
channel-blocked with profile id `p5`. -/
def sampleMgr : AccountMgr :=
  { blocked_accounts := [("alice", ⟨"alice", "p5", none, "r", "t"⟩)]
    unauthorized_accounts := []
    block_accounts_enabled := true }

/-- Witness for C9: `bob` shares profile id `p5` with the
channel-blocked `alice`, so `bob` counts as blocked. -/
theorem C9_blocked_by_shared_id_witness :
    sampleMgr.is_account_blocked "bob" "p5" = true :=
  C9_blocked_by_shared_id sampleMgr "bob" "p5" (by decide)
    (Or.inr ⟨("alice", ⟨"alice", "p5", none, "r", "t"⟩), by simp [sampleMgr], rfl⟩)

/-- C10.  With `account_blocking.enabled = false`, `block_account` is a
no-op for either block type: the manager state (both dictionaries) is
unchanged, neither block file is written, and every subsequent
`is_account_blocked` query answers as before. -/
theorem C10_blocking_disabled_noop (m : AccountMgr)
    (name adspower_id reason : String) (du : Option String)
    (block_type now : String)
    (hdis : m.block_accounts_enabled = false) :
    m.block_account name adspower_id reason du block_type now = ⟨m, false, false⟩ ∧
    (∀ n x, (m.block_account name adspower_id reason du block_type now).mgr.is_account_blocked
        n x = m.is_account_blocked n x) := by
  have h : m.block_account name adspower_id reason du block_type now = ⟨m, false, false⟩ := by
    unfold AccountMgr.block_account
    rw [hdis]
    rfl
  exact ⟨h, fun n x => by rw [h]⟩

/-- The disabled manager used to witness C10. -/
def sampleMgrDisabled : AccountMgr :=
  { blocked_accounts := [("alice", ⟨"alice", "p5", none, "r", "t"⟩)]
    unauthorized_accounts := []
    block_accounts_enabled := false }

/-- Witness for C10: the disabled manager ignores an unauthorized
block request entirely. -/
theorem C10_blocking_disabled_noop_witness :
    sampleMgrDisabled.block_account "bob" "p9" "reason" none "unauthorized" "t2" =
      ⟨sampleMgrDisabled, false, false⟩ :=
  (C10_blocking_disabled_noop sampleMgrDisabled "bob" "p9" "reason" none
    "unauthorized" "t2" rfl).1

/-- `ProfileIdentifier` dataclass of `main.py`. -/
structure ProfileIdentifier where
  profile_id : Option String := none
  serial_number : Option Nat := none
  display_name : String := ""
deriving DecidableEq, Repr

/-- `ProfileIdentifier.from_adspower_id`: a non-empty all-digit
identifier is a serial number, anything else is a profile id. -/
def ProfileIdentifier.from_adspower_id (adspower_id : String) (name : String) :
    ProfileIdentifier :=
  let is_serial := adspower_id ≠ "" && adspower_id.all Char.isDigit
  let serial_number := if is_serial then some (adspower_id.toNat?.getD 0) else none
  let profile_id := if is_serial then none else some adspower_id
  let display := if is_serial then "#" ++ adspower_id else adspower_id
  { profile_id := profile_id
    serial_number := serial_number
    display_name := if name ≠ "" then name ++ " (" ++ display ++ ")" else display }

/-- State of the `ShutdownHandler` dataclass of `main.py`.
`hasAdspower` models whether the `adspower` field is set, and
`transportClosed` whether `adspower.close()` has been awaited. -/
structure ShutdownHandler where
  hasAdspower : Bool := false
  active_profiles : List ProfileIdentifier := []
  is_shutting_down : Bool := false
  transportClosed : Bool := false
deriving DecidableEq, Repr

/-- `ShutdownHandler.register_profile`. -/
def ShutdownHandler.register_profile (sh : ShutdownHandler) (p : ProfileIdentifier) :
    ShutdownHandler :=
  if p ∈ sh.active_profiles then sh
  else { sh with active_profiles := sh.active_profiles ++ [p] }

/-- `ShutdownHandler.unregister_profile`. -/
def ShutdownHandler.unregister_profile (sh : ShutdownHandler) (p : ProfileIdentifier) :
    ShutdownHandler :=
  if p ∈ sh.active_profiles then
    { sh with active_profiles := sh.active_profiles.erase p }
  else sh

/-- `ShutdownHandler.cleanup`.  `stopOk p` tells whether the
`stop_browser_async` call for `p` returns without raising (its Boolean
result is ignored by the source).  Returns the new handler state and
the list of profiles for which a stop was attempted. -/
def ShutdownHandler.cleanup (sh : ShutdownHandler)
    (stopOk : ProfileIdentifier → Bool) : ShutdownHandler × List ProfileIdentifier :=
  if sh.is_shutting_down then (sh, [])
  else
    let sh1 := { sh with is_shutting_down := true }
    if !sh.hasAdspower || sh.active_profiles.isEmpty then (sh1, [])
    else
      let sh2 := sh.active_profiles.foldl (fun acc p =>
        if stopOk p then { acc with active_profiles := acc.active_profiles.erase p }
        else acc) sh1
      ({ sh2 with transportClosed := true }, sh.active_profiles)

lemma cleanup_loop_flag (l : List ProfileIdentifier)
    (stopOk : ProfileIdentifier → Bool) (acc : ShutdownHandler) :
    (l.foldl (fun acc p =>
      if stopOk p then { acc with active_profiles := acc.active_profiles.erase p }
      else acc) acc).is_shutting_down = acc.is_shutting_down := by
  induction l generalizing acc with
  | nil => rfl
  | cons p ps ih =>
    rw [List.foldl_cons, ih]
    by_cases h : stopOk p = true <;> simp [h]

lemma cleanup_sets_flag (sh : ShutdownHandler) (stopOk : ProfileIdentifier → Bool) :
    ((sh.cleanup stopOk).1).is_shutting_down = true := by
  unfold ShutdownHandler.cleanup
  dsimp only
  split_ifs with h1 h2
  · exact h1
  · rfl
  · rw [show ∀ x : ShutdownHandler, ({ x with transportClosed := true } :
      ShutdownHandler).is_shutting_down = x.is_shutting_down from fun x => rfl]
    rw [cleanup_loop_flag]

/-- C6.  `cleanup` is idempotent: whatever the first call did, a second
call finds `is_shutting_down` already set and returns immediately — it
attempts no profile stop and leaves the handler state (in particular
the active-profiles set) completely untouched. -/
theorem C6_cleanup_idempotent (sh : ShutdownHandler)
    (stopOk stopOk2 : ProfileIdentifier → Bool) :
    ((sh.cleanup stopOk).1).cleanup stopOk2 = ((sh.cleanup stopOk).1, []) := by
  have hflag := cleanup_sets_flag sh stopOk
  generalize hx : (sh.cleanup stopOk).1 = x at hflag ⊢
  unfold ShutdownHandler.cleanup
  rw [if_pos hflag]

/-- A roster account dictionary as `main.py` consumes it (`name`,
`adspower_id`, `discord_username`). -/
structure RosterAcc where
  name : String := ""
  adspower_id : String := ""
  discord_username : String := ""
deriving DecidableEq, Repr

instance : Inhabited RosterAcc := ⟨{}⟩

/-- One queued action of a giver batch: the receiver and the action
kind, as produced by `group_pairs_by_giver`. -/
structure ActionData where
  receiver : RosterAcc
  action : String
deriving DecidableEq, Repr

/-- `account_mgr and account_mgr.is_account_blocked(...)` — the guard
`main.py` uses with its optional account manager. -/
def optBlocked (mgr : Option AccountMgr) (name adspower_id : String) : Bool :=
  match mgr with
  | some m => m.is_account_blocked name adspower_id
  | none => false

/-- Environment of one `execute_giver_batch` call: the cancellation
flag (no signal arrives during the batch, so it is a constant), the
outcome of `start_browser`, whether `stop_browser_async` raises, and
the outcome of the i-th `_execute_discord_action` call.  The browser
automation inside `_execute_discord_action` is an external
collaborator; it is abstracted by its Boolean outcome. -/
structure BatchEnv where
  shutdown : Bool
  startOk : Bool
  stopOk : Bool
  execResult : Nat → Bool

/-- Accumulator of the per-action loop of `execute_giver_batch`. -/
structure LoopAcc where
  completed : Nat
  failed : Nat
  sm : Option StateMgr

/-- Result of `execute_giver_batch`: the returned `(completed, failed)`
pair plus the final state manager and shutdown handler. -/
structure BatchResult where
  completed : Nat
  failed : Nat
  state_mgr : Option StateMgr
  handler : ShutdownHandler

/-- The per-action loop body of `execute_giver_batch`: re-check the
cancellation flag, skip blocked receivers (without recording), execute
the action, count the outcome, and record it via `record_action`. -/
def batch_exec_step (env : BatchEnv) (account_mgr : Option AccountMgr)
    (today nowTime giver_name : String) (acc : LoopAcc) (ia : Nat × ActionData) :
    LoopAcc :=
  if env.shutdown then acc
  else if optBlocked account_mgr ia.2.receiver.name ia.2.receiver.adspower_id then acc
  else
    let success := env.execResult ia.1
    let completed := if success then acc.completed + 1 else acc.completed
    let failed := if success then acc.failed else acc.failed + 1
    let sm := match acc.sm with
      | some s => some (s.record_action today nowTime giver_name ia.2.receiver.name
          ia.2.action success)
      | none => none
    ⟨completed, failed, sm⟩

/-- `execute_giver_batch` of `main.py`: skip a blocked giver, honour
the cancellation flag, start the browser (on failure record every
queued action as failed and return without registering), otherwise
register the profile, run the action loop, and finally stop the
browser and unregister (only when the stop call does not raise). -/
def execute_giver_batch (env : BatchEnv) (account_mgr : Option AccountMgr)
    (state_mgr : Option StateMgr) (sh : ShutdownHandler) (today nowTime : String)
    (giver : RosterAcc) (actions : List ActionData) : BatchResult :=
  if optBlocked account_mgr giver.name giver.adspower_id then
    ⟨0, 0, state_mgr, sh⟩
  else
    let profile := ProfileIdentifier.from_adspower_id giver.adspower_id giver.name
    if env.shutdown then ⟨0, 0, state_mgr, sh⟩
    else if !env.startOk then
      let sm := match state_mgr with
        | some s => some (actions.foldl (fun st act =>
            st.record_action today nowTime giver.name act.receiver.name act.action false) s)
        | none => none
      ⟨0, actions.length, sm, sh⟩
    else
      let sh1 := sh.register_profile profile
      let res := actions.enum.foldl
        (batch_exec_step env account_mgr today nowTime giver.name) ⟨0, 0, state_mgr⟩
      let sh2 := if env.stopOk then sh1.unregister_profile profile else sh1
      ⟨res.completed, res.failed, res.sm, sh2⟩

/-- C5.  When the giver is not blocked, no shutdown is pending and the
browser start call fails, `execute_giver_batch` records every queued
action through `record_action` with `success=false`, reports
`(completed, failed) = (0, len(actions))`, and leaves the shutdown
handler untouched — in particular the giver's profile is never
registered. -/
theorem C5_launch_failure_records_all (env : BatchEnv) (mgr : Option AccountMgr)
    (s : StateMgr) (sh : ShutdownHandler) (today nowTime : String)
    (giver : RosterAcc) (actions : List ActionData)
    (hnotblocked : optBlocked mgr giver.name giver.adspower_id = false)
    (hnoshut : env.shutdown = false)
    (hfail : env.startOk = false) :
    execute_giver_batch env mgr (some s) sh today nowTime giver actions =
      ⟨0, actions.length,
        some (actions.foldl (fun st act =>
          st.record_action today nowTime giver.name act.receiver.name act.action false) s),
        sh⟩ := by
  unfold execute_giver_batch
  rw [hnotblocked, hnoshut, hfail]
  rfl

/-- Witness for C5 at a concrete failing environment with two queued
actions. -/
theorem C5_launch_failure_witness :
    execute_giver_batch ⟨false, false, true, fun _ => true⟩ none
        (some {}) {} "2026-10-12" "12:00:00" { name := "alice", adspower_id := "p1" }
        [⟨{ name := "bob" }, "bless"⟩, ⟨{ name := "carl" }, "curse"⟩] =
      ⟨0, 2,
        some ([(⟨{ name := "bob" }, "bless"⟩ : ActionData),
               ⟨{ name := "carl" }, "curse"⟩].foldl (fun st act =>
          st.record_action "2026-10-12" "12:00:00" "alice" act.receiver.name
            act.action false) {}),
        {}⟩ := by
  have h := C5_launch_failure_records_all ⟨false, false, true, fun _ => true⟩ none
    {} {} "2026-10-12" "12:00:00" { name := "alice", adspower_id := "p1" }
    [⟨{ name := "bob" }, "bless"⟩, ⟨{ name := "carl" }, "curse"⟩]
    rfl rfl rfl
  simpa using h

/-- A tagged available giver, as built by
`StateManager._get_available_givers`: the roster account plus its
`remaining_today` capacity (the `progress` reference is omitted: the
pairing code reads only `name` and `remaining_today`). -/
structure GiverEntry where
  acc : RosterAcc
  remaining_today : Nat
deriving DecidableEq, Repr

instance : Inhabited GiverEntry := ⟨{}, 0⟩

/-- A tagged needing receiver, as built by
`StateManager._get_accounts_needing_actions`. -/
structure NeedEntry where
  acc : RosterAcc
  needs_bless : Bool
  bless_remaining : Nat
  needs_curse : Bool
  curse_remaining : Nat
  total_needed : Nat
deriving DecidableEq, Repr

/-- One entry of the flat action queue of `_build_pairs_even`. -/
structure QItem where
  receiver : NeedEntry
  action : String
  priority : Nat
deriving DecidableEq, Repr

/-- One plan item of `_build_pairs_even` / `get_optimal_pairs`.  The
Python dict stores a reference to the mutable giver dict; only its
immutable roster fields are consumed downstream, so the giver is kept
as its roster account. -/
structure PlanPair where
  giver : RosterAcc
  receiver : NeedEntry
  action : String
  index : Nat
  total : Nat
deriving DecidableEq, Repr

/-- Stable insertion into a list sorted descending by `key`: the new
element goes before the first element whose key is not larger, which
reproduces the order Python's stable `list.sort(key=..., reverse=True)`
yields. -/
def insertDescBy (key : α → Nat) (x : α) : List α → List α
  | [] => [x]
  | y :: ys => if key y ≤ key x then x :: y :: ys else y :: insertDescBy key x ys

/-- Stable descending sort by `key` (Python's
`list.sort(key=..., reverse=True)`). -/
def sortDescBy (key : α → Nat) : List α → List α
  | [] => []
  | x :: xs => insertDescBy key x (sortDescBy key xs)

lemma insertDescBy_perm (key : α → Nat) (x : α) (l : List α) :
    (insertDescBy key x l).Perm (x :: l) := by
  induction l with
  | nil => exact List.Perm.refl _
  | cons y ys ih =>
    unfold insertDescBy
    split_ifs
    · exact List.Perm.refl _
    · exact ((ih.cons y).trans (List.Perm.swap x y ys))

lemma sortDescBy_perm (key : α → Nat) (l : List α) :
    (sortDescBy key l).Perm l := by
  induction l with
  | nil => exact List.Perm.refl _
  | cons x xs ih =>
    exact (insertDescBy_perm key x (sortDescBy key xs)).trans (ih.cons x)

/-- `min(usage.values()) if usage else 0`. -/
def list_min : List Nat → Nat
  | [] => 0
  | x :: xs => xs.foldl Nat.min x

/-- The flat action queue of `_build_pairs_even` before sorting: one
item per still-needed action kind of each needing receiver, bless
first, carrying the kind-specific remaining count as priority. -/
def mk_action_queue (receivers : List NeedEntry) : List QItem :=
  receivers.flatMap (fun r =>
    (if r.needs_bless then [⟨r, "bless", r.bless_remaining⟩] else []) ++
    (if r.needs_curse then [⟨r, "curse", r.curse_remaining⟩] else []))

/-- The sorted and truncated action queue of `_build_pairs_even`. -/
def action_queue (receivers : List NeedEntry) (max_actions : Nat) : List QItem :=
  (sortDescBy (fun x => x.priority) (mk_action_queue receivers)).take max_actions

/-- `StateManager._find_next_giver_idx`: from the position after
`current_idx`, the first giver whose usage count is minimal and whose
capacity is positive; plain next index when none qualifies. -/
def find_next_giver_idx (givers : List GiverEntry) (current_idx : Nat)
    (usage : List Nat) : Nat :=
  if givers.isEmpty then 0
  else
    let min_usage := list_min usage
    match (List.range givers.length).find? (fun i =>
        usage.getD ((current_idx + 1 + i) % givers.length) 0 == min_usage &&
        (givers.getD ((current_idx + 1 + i) % givers.length) default).remaining_today > 0) with
    | some i => (current_idx + 1 + i) % givers.length
    | none => (current_idx + 1) % givers.length

/-- The candidate scan of `_build_pairs_even`'s inner `while` loop:
starting at `start_idx`, up to `len(givers)` attempts, the first giver
that is not the receiver and still has capacity; the returned index is
where the loop's `giver_idx` ends up (unchanged modulo the length when
the scan fails). -/
def scan_giver_idx (givers : List GiverEntry) (recv_name : String)
    (start_idx : Nat) : Option Nat :=
  ((List.range givers.length).find? (fun t =>
    (givers.getD ((start_idx + t) % givers.length) default).acc.name != recv_name &&
    (givers.getD ((start_idx + t) % givers.length) default).remaining_today > 0)).map
    (fun t => (start_idx + t) % givers.length)

/-- The mutable state of `_build_pairs_even`'s assignment loop. -/
structure BuildState where
  givers : List GiverEntry
  usage : List Nat
  giver_idx : Nat
  pairs : List PlanPair

/-- One iteration of `_build_pairs_even`'s `for` loop: scan for an
eligible giver, skip the item when none exists, otherwise append the
pair, decrement the giver's capacity, bump its usage counter (indexed
through `givers.index(giver)`), and move the pointer via
`_find_next_giver_idx`. -/
def build_step (st : BuildState) (item : QItem) : BuildState :=
  match scan_giver_idx st.givers item.receiver.acc.name st.giver_idx with
  | none => st
  | some j =>
    let g := st.givers.getD j default
    let g2 := { g with remaining_today := g.remaining_today - 1 }
    let givers2 := st.givers.set j g2
    let k := givers2.findIdx (fun x => x == g2)
    let usage2 := st.usage.set k (st.usage.getD k 0 + 1)
    let pairs2 := st.pairs ++ [⟨g.acc, item.receiver, item.action, st.pairs.length + 1, 0⟩]
    { givers := givers2
      usage := usage2
      giver_idx := find_next_giver_idx givers2 j usage2
      pairs := pairs2 }

/-- `StateManager._build_pairs_even`. -/
def build_pairs_even (givers : List GiverEntry) (receivers : List NeedEntry)
    (max_actions : Nat) : List PlanPair :=
  if givers.isEmpty || receivers.isEmpty then []
  else
    let queue := action_queue receivers max_actions
    let final := queue.foldl build_step
      ⟨givers, List.replicate givers.length 0, 0, []⟩
    final.pairs.map (fun p => { p with total := final.pairs.length })

/-- `StateManager._get_available_givers`: roster accounts that are not
blocked and can still give today, tagged with their remaining
capacity; threads the state mutations of `can_give_action_today`. -/
def get_available_givers (s : StateMgr) (today : String)
    (accounts : List RosterAcc) (mgr : Option AccountMgr) :
    StateMgr × List GiverEntry :=
  let daily_limit := s.settings.daily_limit_per_account
  accounts.foldl (fun acc a =>
    if optBlocked mgr a.name a.adspower_id then acc
    else
      let step := acc.1.can_give_action_today today a.name
      if step.2 then
        let progress := (step.1.lookupAcc a.name).getD {}
        (step.1, acc.2 ++ [⟨a, daily_limit - progress.total_given_today⟩])
      else (step.1, acc.2)) (s, [])

/-- `StateManager._get_accounts_needing_actions`: unblocked roster
accounts still needing bless or curse, tagged with their remaining
needs, sorted descending by total need (stable). -/
def get_accounts_needing_actions (s : StateMgr) (accounts : List RosterAcc)
    (mgr : Option AccountMgr) : StateMgr × List NeedEntry :=
  let res := accounts.foldl (fun acc a =>
    if optBlocked mgr a.name a.adspower_id then acc
    else
      let sb := acc.1.needs_bless a.name
      let sc := sb.1.needs_curse a.name
      if sb.2.1 || sc.2.1 then
        (sc.1, acc.2 ++ [⟨a, sb.2.1, sb.2.2, sc.2.1, sc.2.2, sb.2.2 + sc.2.2⟩])
      else (sc.1, acc.2)) (s, [])
  (res.1, sortDescBy (fun x => x.total_needed) res.2)

/-- `StateManager.save_if_dirty`. -/
def StateMgr.save_if_dirty (s : StateMgr) : StateMgr :=
  if s.dirty then { s with dirty := false } else s

/-- The re-numbering pass after the shuffle in `get_optimal_pairs`. -/
def reindex (pairs : List PlanPair) : List PlanPair :=
  pairs.enum.map (fun ip => { ip.2 with index := ip.1 + 1 })

/-- `StateManager.get_optimal_pairs`.  `random.shuffle` is modelled by
an explicit `shuffle` parameter; the theorems below assume only that it
permutes its input. -/
def get_optimal_pairs (shuffle : List PlanPair → List PlanPair) (s : StateMgr)
    (today : String) (accounts : List RosterAcc) (max_actions : Nat)
    (mgr : Option AccountMgr) : StateMgr × List PlanPair :=
  let s1 := accounts.foldl (fun st a => st.ensure_account_exists a.name) s
  let s2 := s1.save_if_dirty
  let stepG := get_available_givers s2 today accounts mgr
  if stepG.2.isEmpty then (stepG.1, [])
  else
    let stepN := get_accounts_needing_actions stepG.1 accounts mgr
    if stepN.2.isEmpty then (stepN.1, [])
    else
      let pairs := build_pairs_even stepG.2 stepN.2 max_actions
      (stepN.1, reindex (shuffle pairs))

lemma scan_giver_idx_spec {givers : List GiverEntry} {n : String} {i j : Nat}
    (h : scan_giver_idx givers n i = some j) :
    (givers.getD j default).acc.name ≠ n ∧
      0 < (givers.getD j default).remaining_today ∧ j < givers.length := by
  unfold scan_giver_idx at h
  obtain ⟨t, hfind, hj⟩ := Option.map_eq_some'.mp h
  have hp := List.find?_some hfind
  have ht := List.mem_of_find?_eq_some hfind
  have hlen : 0 < givers.length := by
    rcases Nat.eq_zero_or_pos givers.length with h0 | h0
    · rw [h0] at ht; simp at ht
    · exact h0
  rw [← hj]
  simp only [Bool.and_eq_true, bne_iff_ne, decide_eq_true_eq] at hp
  exact ⟨hp.1, hp.2, Nat.mod_lt _ hlen⟩

lemma build_step_no_self {st : BuildState} {item : QItem}
    (h : ∀ p ∈ st.pairs, p.giver.name ≠ p.receiver.acc.name) :
    ∀ p ∈ (build_step st item).pairs, p.giver.name ≠ p.receiver.acc.name := by
  unfold build_step
  cases hscan : scan_giver_idx st.givers item.receiver.acc.name st.giver_idx with
  | none => exact h
  | some j =>
    intro p hp
    dsimp only at hp
    rcases List.mem_append.mp hp with hp | hp
    · exact h p hp
    · have hj := scan_giver_idx_spec hscan
      have hpe : p = ⟨(st.givers.getD j default).acc, item.receiver, item.action,
          st.pairs.length + 1, 0⟩ := by simpa using hp
      rw [hpe]
      exact hj.1

lemma build_fold_no_self (queue : List QItem) :
    ∀ (st : BuildState), (∀ p ∈ st.pairs, p.giver.name ≠ p.receiver.acc.name) →
      ∀ p ∈ (queue.foldl build_step st).pairs, p.giver.name ≠ p.receiver.acc.name := by
  induction queue with
  | nil => intro st h; exact h
  | cons q qs ih =>
    intro st h
    rw [List.foldl_cons]
    exact ih _ (build_step_no_self h)

lemma build_pairs_no_self (givers : List GiverEntry) (receivers : List NeedEntry)
    (max_actions : Nat) :
    ∀ p ∈ build_pairs_even givers receivers max_actions,
      p.giver.name ≠ p.receiver.acc.name := by
  unfold build_pairs_even
  split_ifs with hempty
  · simp
  · intro p hp
    dsimp only at hp
    obtain ⟨q, hq, hpq⟩ := List.mem_map.mp hp
    have := build_fold_no_self (action_queue receivers max_actions)
      ⟨givers, List.replicate givers.length 0, 0, []⟩ (by simp) q hq
    rw [← hpq]
    exact this

lemma foldl_snd_mem {α β γ : Type} (step : (α × List γ) → β → (α × List γ))
    (Q : β → γ → Prop)
    (hstep : ∀ acc b, ∀ y ∈ (step acc b).2, y ∈ acc.2 ∨ Q b y) :
    ∀ (l : List β) (init : α × List γ) (y : γ),
      y ∈ (l.foldl step init).2 → y ∈ init.2 ∨ ∃ b ∈ l, Q b y := by
  intro l
  induction l with
  | nil => intro init y h; exact Or.inl h
  | cons b bs ih =>
    intro init y h
    rw [List.foldl_cons] at h
    rcases ih _ y h with h2 | h2
    · rcases hstep init b y h2 with h3 | h3
      · exact Or.inl h3
      · exact Or.inr ⟨b, by simp, h3⟩
    · obtain ⟨b2, hb2, hq⟩ := h2
      exact Or.inr ⟨b2, by simp [hb2], hq⟩

lemma available_givers_acc_mem (s : StateMgr) (today : String)
    (accounts : List RosterAcc) (mgr : Option AccountMgr) :
    ∀ g ∈ (get_available_givers s today accounts mgr).2, g.acc ∈ accounts := by
  intro g hg
  unfold get_available_givers at hg
  have := foldl_snd_mem _ (fun (a : RosterAcc) (y : GiverEntry) => y.acc = a) ?hstep
    accounts (s, []) g hg
  · rcases this with h | ⟨a, ha, hq⟩
    · simp at h
    · rw [hq]; exact ha
  case hstep =>
    intro acc a y hy
    dsimp only at hy
    split_ifs at hy with h1 h2
    · exact Or.inl hy
    · rcases List.mem_append.mp hy with hy | hy
      · exact Or.inl hy
      · right
        simpa using congrArg GiverEntry.acc (by simpa using hy)
    · exact Or.inl hy

lemma needing_acc_mem (s : StateMgr) (accounts : List RosterAcc)
    (mgr : Option AccountMgr) :
    ∀ r ∈ (get_accounts_needing_actions s accounts mgr).2, r.acc ∈ accounts := by
  intro r hr
  unfold get_accounts_needing_actions at hr
  have hr2 := (sortDescBy_perm (fun x : NeedEntry => x.total_needed) _).mem_iff.mp hr
  have := foldl_snd_mem _ (fun (a : RosterAcc) (y : NeedEntry) => y.acc = a) ?hstep
    accounts (s, []) r hr2
  · rcases this with h | ⟨a, ha, hq⟩
    · simp at h
    · rw [hq]; exact ha
  case hstep =>
    intro acc a y hy
    dsimp only at hy
    split_ifs at hy with h1 h2
    · exact Or.inl hy
    · rcases List.mem_append.mp hy with hy | hy
      · exact Or.inl hy
      · right
        simpa using congrArg NeedEntry.acc (by simpa using hy)
    · exact Or.inl hy

lemma queue_receiver_mem (receivers : List NeedEntry) (max_actions : Nat) :
    ∀ item ∈ action_queue receivers max_actions, item.receiver ∈ receivers := by
  intro item hitem
  unfold action_queue at hitem
  have h1 := List.take_subset _ _ hitem
  have h2 := (sortDescBy_perm (fun x : QItem => x.priority) _).mem_iff.mp h1
  unfold mk_action_queue at h2
  obtain ⟨r, hr, hmem⟩ := List.mem_flatMap.mp h2
  rcases List.mem_append.mp hmem with hm | hm <;>
    [skip; skip] <;>
    · split_ifs at hm <;> simp_all

lemma scan_none_of_all_self {givers : List GiverEntry} {n : String} (i : Nat)
    (h : ∀ g ∈ givers, g.acc.name = n) :
    scan_giver_idx givers n i = none := by
  unfold scan_giver_idx
  rw [List.find?_eq_none.mpr]
  · rfl
  · intro t ht
    have htlen : (i + t) % givers.length < givers.length := by
      apply Nat.mod_lt
      rcases Nat.eq_zero_or_pos givers.length with h0 | h0
      · rw [h0] at ht; simp at ht
      · exact h0
    have hmem : givers.getD ((i + t) % givers.length) default ∈ givers := by
      rw [List.getD_eq_getElem _ _ htlen]
      exact List.getElem_mem _
    have hname := h _ hmem
    simp only [List.getD, List.get?_eq_getElem?] at hname
    simp [hname]

lemma mem_reindex {l : List PlanPair} {p : PlanPair} (h : p ∈ reindex l) :
    ∃ q ∈ l, p.giver = q.giver ∧ p.receiver = q.receiver := by
  unfold reindex at h
  obtain ⟨ip, hip, hpe⟩ := List.mem_map.mp h
  refine ⟨ip.2, ?_, by rw [← hpe], by rw [← hpe]⟩
  rw [← List.enum_map_snd l]
  exact List.mem_map_of_mem _ hip

lemma build_fold_const_self (queue : List QItem) (n : String) :
    ∀ st : BuildState, (∀ g ∈ st.givers, g.acc.name = n) →
      (∀ item ∈ queue, item.receiver.acc.name = n) →
      queue.foldl build_step st = st := by
  induction queue with
  | nil => intro st _ _; rfl
  | cons q qs ih =>
    intro st hg hq
    rw [List.foldl_cons]
    have hnone := @scan_none_of_all_self st.givers q.receiver.acc.name st.giver_idx
      (fun g hg2 => by rw [hg g hg2, hq q (by simp)])
    have hstep : build_step st q = st := by
      unfold build_step
      rw [hnone]
    rw [hstep]
    exact ih st hg (fun item hi => hq item (by simp [hi]))

/-- C4.  The smart planner never pairs an account with itself: every
plan item of `get_optimal_pairs` (for any state, roster, budget,
block predicate and shuffle that permutes its input) has a giver whose
name differs from the receiver's name; consequently a one-account
roster always yields an empty plan. -/
theorem C4_no_self_targeting (shuffle : List PlanPair → List PlanPair)
    (hshuf : ∀ l, (shuffle l).Perm l)
    (s : StateMgr) (today : String) (accounts : List RosterAcc)
    (max_actions : Nat) (mgr : Option AccountMgr) :
    (∀ p ∈ (get_optimal_pairs shuffle s today accounts max_actions mgr).2,
      p.giver.name ≠ p.receiver.acc.name) ∧
    (∀ a : RosterAcc, accounts = [a] →
      (get_optimal_pairs shuffle s today accounts max_actions mgr).2 = []) := by
  constructor
  · intro p hp
    unfold get_optimal_pairs at hp
    dsimp only at hp
    split_ifs at hp with h1 h2
    · simp at hp
    · simp at hp
    · obtain ⟨q, hq, hgp, hrp⟩ := mem_reindex hp
      have hq2 := (hshuf _).mem_iff.mp hq
      rw [hgp, hrp]
      exact build_pairs_no_self _ _ _ q hq2
  · intro a ha
    subst ha
    unfold get_optimal_pairs
    dsimp only
    split_ifs with h1 h2
    · rfl
    · rfl
    · have hbuild : build_pairs_even
          (get_available_givers
            ((([a] : List RosterAcc).foldl (fun st x => st.ensure_account_exists x.name)
              s).save_if_dirty) today [a] mgr).2
          (get_accounts_needing_actions
            (get_available_givers
              ((([a] : List RosterAcc).foldl (fun st x => st.ensure_account_exists x.name)
                s).save_if_dirty) today [a] mgr).1 [a] mgr).2 max_actions = [] := by
        unfold build_pairs_even
        split_ifs with h3
        · rfl
        · have hfold := build_fold_const_self
            (action_queue (get_accounts_needing_actions
              (get_available_givers
                ((([a] : List RosterAcc).foldl (fun st x => st.ensure_account_exists x.name)
                  s).save_if_dirty) today [a] mgr).1 [a] mgr).2 max_actions)
            a.name
            ⟨(get_available_givers
                ((([a] : List RosterAcc).foldl (fun st x => st.ensure_account_exists x.name)
                  s).save_if_dirty) today [a] mgr).2,
              List.replicate (get_available_givers
                ((([a] : List RosterAcc).foldl (fun st x => st.ensure_account_exists x.name)
                  s).save_if_dirty) today [a] mgr).2.length 0, 0, []⟩
            (by
              intro g hg
              have := available_givers_acc_mem _ _ _ _ g hg
              simp at this
              rw [this])
            (by
              intro item hi
              have hrec := queue_receiver_mem _ _ item hi
              have := needing_acc_mem _ _ _ item.receiver hrec
              simp at this
              rw [this])
          dsimp only
          rw [hfold]
          rfl
      rw [hbuild]
      have := (hshuf []).eq_nil
      rw [this]
      rfl

/-- Number of plan items assigned to the giver named `nm`. -/
def countGiver (pairs : List PlanPair) (nm : String) : Nat :=
  pairs.countP (fun p => p.giver.name == nm)

/-- Progress of roster account `a` in the C2 scenario: needs 2 bless
and 1 curse, fresh today. -/
def c2progA : AccountProgress :=
  { bless_received := 4, curse_received := 4, bless_given_today := 0,
    curse_given_today := 0, last_action_date := "2026-10-12", last_action_time := "" }

/-- Progress of roster account `b`: all targets reached, fresh today. -/
def c2progB : AccountProgress :=
  { bless_received := 6, curse_received := 5, bless_given_today := 0,
    curse_given_today := 0, last_action_date := "2026-10-12", last_action_time := "" }

/-- Progress of roster account `x`: needs everything but has exhausted
its daily limit. -/
def c2progX : AccountProgress :=
  { bless_received := 0, curse_received := 0, bless_given_today := 5,
    curse_given_today := 0, last_action_date := "2026-10-12", last_action_time := "" }

/-- Settings of the C2 scenario. -/
def c2settings : Settings :=
  { daily_limit_per_account := 5, target_bless := 6, target_curse := 5,
    created_at := "" }

/-- The C2 scenario state: givers `a` and `b` with equal remaining
capacity 5, receivers `x` (high priority) and `a` (low priority). -/
def c2state : StateMgr :=
  { accounts := [("a", c2progA), ("b", c2progB), ("x", c2progX)]
    daily_stats := []
    settings := c2settings
    dirty := false }

/-- The C2 scenario roster. -/
def c2roster : List RosterAcc :=
  [{ name := "a", adspower_id := "1" }, { name := "b", adspower_id := "2" },
   { name := "x", adspower_id := "3" }]

/-- The state `get_optimal_pairs` holds when it computes the available
givers in the C2 scenario (after the ensure pass and the dirty save). -/
def c2s2 : StateMgr :=
  ((c2roster.foldl (fun st a => st.ensure_account_exists a.name) c2state).save_if_dirty)

/-- Witness for C4: on the concrete C2 scenario with the identity
shuffle, no plan item is self-targeted, and a one-account roster gives
an empty plan. -/
theorem C4_no_self_targeting_witness :
    (∀ p ∈ (get_optimal_pairs id c2state "2026-10-12" c2roster 10 none).2,
      p.giver.name ≠ p.receiver.acc.name) ∧
    (∀ a : RosterAcc, c2roster = [a] →
      (get_optimal_pairs id c2state "2026-10-12" c2roster 10 none).2 = []) :=
  C4_no_self_targeting id (fun l => List.Perm.refl l) c2state "2026-10-12"
    c2roster 10 none

/-- C2 counterexample: the claim as stated is false.  In the concrete
scenario both givers enter planning with remaining capacity 5, the
truncated queue holds 4 = 2 × 2 items, yet `b` receives three plan
items and `a` only one — the `candidate.name != receiver.name` skip
inside the assignment loop repeatedly diverts items targeting `a` to
`b` without rebalancing, so the usage counts differ by 2. -/
theorem C2_fairness_counterexample :
    (∀ g ∈ (get_available_givers c2s2 "2026-10-12" c2roster none).2,
      g.remaining_today = 5) ∧
    (get_available_givers c2s2 "2026-10-12" c2roster none).2.length = 2 ∧
    2 * (get_available_givers c2s2 "2026-10-12" c2roster none).2.length ≤
      (action_queue (get_accounts_needing_actions
        (get_available_givers c2s2 "2026-10-12" c2roster none).1 c2roster none).2
        10).length ∧
    countGiver (get_optimal_pairs id c2state "2026-10-12" c2roster 10 none).2 "b" =
      countGiver (get_optimal_pairs id c2state "2026-10-12" c2roster 10 none).2 "a"
        + 2 := by
  decide

lemma getD_set_self {α : Type} [Inhabited α] (l : List α) (n : Nat) (a d : α)
    (h : n < l.length) : (l.set n a).getD n d = a := by
  simp [List.getD, List.getElem?_set_self, h]

lemma getD_set_ne {α : Type} [Inhabited α] (l : List α) (i n : Nat) (a d : α)
    (h : i ≠ n) : (l.set n a).getD i d = l.getD i d := by
  simp [List.getD, List.getElem?_set_ne (fun hc => h hc.symm)]

lemma set_own_getElem {α : Type} (l : List α) (n : Nat) (h : n < l.length) :
    l.set n l[n] = l := by
  apply List.ext_getElem
  · simp
  · intro i hi1 hi2
    by_cases hin : i = n
    · subst hin
      simp [List.getElem_set]
    · simp [List.getElem_set]
      exact fun hni => absurd hni.symm hin

lemma getD_replicate_lt (n i v d : Nat) (h : i < n) :
    (List.replicate n v).getD i d = v := by
  rw [List.getD_eq_getElem _ _ (by simpa using h)]
  exact List.getElem_replicate ..

lemma foldl_min_le_acc (xs : List Nat) : ∀ a, xs.foldl Nat.min a ≤ a := by
  induction xs with
  | nil => intro a; exact Nat.le_refl a
  | cons x xs ih =>
    intro a
    rw [List.foldl_cons]
    exact Nat.le_trans (ih (Nat.min a x)) (Nat.min_le_left a x)

lemma foldl_min_le_mem (xs : List Nat) : ∀ a x, x ∈ xs → xs.foldl Nat.min a ≤ x := by
  induction xs with
  | nil => intro a x hx; cases hx
  | cons y ys ih =>
    intro a x hx
    rw [List.foldl_cons]
    rcases List.mem_cons.mp hx with hx | hx
    · subst hx
      exact Nat.le_trans (foldl_min_le_acc ys _) (Nat.min_le_right a x)
    · exact ih _ x hx

lemma foldl_min_mem (xs : List Nat) : ∀ a, xs.foldl Nat.min a = a ∨ xs.foldl Nat.min a ∈ xs := by
  induction xs with
  | nil => intro a; exact Or.inl rfl
  | cons y ys ih =>
    intro a
    rw [List.foldl_cons]
    rcases ih (Nat.min a y) with h | h
    · rw [h]
      rcases Nat.le_total a y with hle | hle
      · exact Or.inl (Nat.min_eq_left hle)
      · exact Or.inr (by simp [Nat.min_eq_right hle])
    · exact Or.inr (by simp [h])

lemma list_min_le {l : List Nat} {x : Nat} (h : x ∈ l) : list_min l ≤ x := by
  cases l with
  | nil => cases h
  | cons y ys =>
    unfold list_min
    rcases List.mem_cons.mp h with h | h
    · subst h
      exact foldl_min_le_acc ys x
    · exact foldl_min_le_mem ys y x h

lemma list_min_mem {l : List Nat} (h : l ≠ []) : list_min l ∈ l := by
  cases l with
  | nil => exact absurd rfl h
  | cons y ys =>
    show ys.foldl Nat.min y ∈ y :: ys
    rcases foldl_min_mem ys y with h2 | h2
    · rw [h2]; simp
    · simp [h2]

lemma exists_range_mod (len j k : Nat) (hlen : 0 < len) (hk : k < len) :
    ∃ i, i < len ∧ (j + i) % len = k := by
  refine ⟨(k + len - j % len) % len, Nat.mod_lt _ hlen, ?_⟩
  have ha : j % len < len := Nat.mod_lt _ hlen
  have hdm := Nat.div_add_mod j len
  have hj : j + (k + len - j % len) = len * (j / len) + (k + len) := by omega
  rw [Nat.add_mod_mod, hj, Nat.mul_add_mod, Nat.add_mod_right]
  exact Nat.mod_eq_of_lt hk

lemma scan_giver_idx_at_start {givers : List GiverEntry} {n : String} {idx : Nat}
    (hidx : idx < givers.length)
    (hname : (givers.getD idx default).acc.name ≠ n)
    (hrem : 0 < (givers.getD idx default).remaining_today) :
    scan_giver_idx givers n idx = some idx := by
  unfold scan_giver_idx
  simp only [List.getD, List.get?_eq_getElem?] at hname hrem
  have hidx0 : (idx + 0) % givers.length = idx := by
    rw [Nat.add_zero]
    exact Nat.mod_eq_of_lt hidx
  have hlenpos : 0 < givers.length := Nat.lt_of_le_of_lt (Nat.zero_le idx) hidx
  have hn1 : givers.length - 1 + 1 = givers.length := Nat.succ_pred_eq_of_pos hlenpos
  have hr : List.range givers.length = 0 :: (List.range (givers.length - 1)).map Nat.succ := by
    conv_lhs => rw [← hn1]
    rw [List.range_succ_eq_map]
  rw [hr, List.find?_cons_of_pos]
  · simp [Nat.mod_eq_of_lt hidx]
  · simp only [hidx0]
    simp [hname, hrem]

lemma scan_none_of_norem {givers : List GiverEntry} {n : String} (i : Nat)
    (h : ∀ g ∈ givers, g.remaining_today = 0) :
    scan_giver_idx givers n i = none := by
  unfold scan_giver_idx
  rw [List.find?_eq_none.mpr]
  · rfl
  · intro t ht
    have htlen : (i + t) % givers.length < givers.length := by
      apply Nat.mod_lt
      rcases Nat.eq_zero_or_pos givers.length with h0 | h0
      · rw [h0] at ht; simp at ht
      · exact h0
    have hmem : givers.getD ((i + t) % givers.length) default ∈ givers := by
      rw [List.getD_eq_getElem _ _ htlen]
      exact List.getElem_mem _
    have hrem := h _ hmem
    simp only [List.getD, List.get?_eq_getElem?] at hrem
    simp [hrem]

lemma find_next_lt (givers : List GiverEntry) (current : Nat) (usage : List Nat)
    (h : givers ≠ []) : find_next_giver_idx givers current usage < givers.length := by
  have hpos : 0 < givers.length := List.length_pos.mpr h
  unfold find_next_giver_idx
  rw [if_neg (by simpa using h)]
  dsimp only
  cases hf : (List.range givers.length).find? (fun i =>
      usage.getD ((current + 1 + i) % givers.length) 0 == list_min usage &&
      (givers.getD ((current + 1 + i) % givers.length) default).remaining_today > 0) with
  | none => exact Nat.mod_lt _ hpos
  | some i => exact Nat.mod_lt _ hpos

lemma find_next_spec (givers : List GiverEntry) (current : Nat) (usage : List Nat)
    (h : givers ≠ []) :
    (usage.getD (find_next_giver_idx givers current usage) 0 = list_min usage ∧
      0 < (givers.getD (find_next_giver_idx givers current usage) default).remaining_today) ∨
    (∀ k, k < givers.length →
      ¬(usage.getD k 0 = list_min usage ∧
        0 < (givers.getD k default).remaining_today)) := by
  have hpos : 0 < givers.length := List.length_pos.mpr h
  unfold find_next_giver_idx
  rw [if_neg (by simpa using h)]
  dsimp only
  cases hf : (List.range givers.length).find? (fun i =>
      usage.getD ((current + 1 + i) % givers.length) 0 == list_min usage &&
      (givers.getD ((current + 1 + i) % givers.length) default).remaining_today > 0) with
  | some i =>
    left
    have hp := List.find?_some hf
    simp only [Bool.and_eq_true, beq_iff_eq, decide_eq_true_eq] at hp
    exact hp
  | none =>
    right
    intro k hk hcontra
    obtain ⟨i, hi, hik⟩ := exists_range_mod givers.length (current + 1) k hpos hk
    have hnone := List.find?_eq_none.mp hf i (List.mem_range.mpr hi)
    rw [hik] at hnone
    simp only [Bool.and_eq_true, beq_iff_eq, decide_eq_true_eq] at hnone
    exact hnone ⟨hcontra.1, hcontra.2⟩

lemma findIdx_set (l : List GiverEntry) (j : Nat) (g2 : GiverEntry)
    (hnd : (l.map (fun g => g.acc.name)).Nodup) :
    ∀ (hj : j < l.length), g2.acc.name = l[j].acc.name →
      (l.set j g2).findIdx (fun x => x == g2) = j := by
  induction l generalizing j with
  | nil => intro hj _; simp at hj
  | cons y ys ih =>
    intro hj hname
    cases j with
    | zero =>
      rw [List.set_cons_zero, List.findIdx_cons]
      simp
    | succ j2 =>
      rw [List.set_cons_succ, List.findIdx_cons]
      rw [List.map_cons, List.nodup_cons] at hnd
      have hj2 : j2 < ys.length := by simpa using hj
      have hyname : y.acc.name ≠ g2.acc.name := by
        intro hc
        apply hnd.1
        rw [hc, hname]
        have : ys[j2].acc.name ∈ ys.map (fun g => g.acc.name) := by
          exact List.mem_map_of_mem _ (List.getElem_mem _)
        simpa using this
      have hyne : (y == g2) = false := by
        apply beq_eq_false_iff_ne.mpr
        intro hc
        exact hyname (by rw [hc])
      rw [hyne]
      simp only [cond_false]
      have := ih j2 hnd.2 hj2 (by simpa using hname)
      omega

lemma getD_mem {α : Type} [Inhabited α] {l : List α} {i : Nat} (h : i < l.length)
    (d : α) : l.getD i d ∈ l := by
  rw [List.getD_eq_getElem _ _ h]
  exact List.getElem_mem _

/-- Invariant of `_build_pairs_even`'s assignment loop under equal
initial capacities `R`: the roster fields of the working giver list
match the original `G`, capacities and usage counters are complementary
(`remaining + usage = R` at every index), usage counts are pairwise
within 1 of each other, the pointer sits on a minimal-usage giver with
capacity (unless all capacity is gone), and the plan built so far
assigns each giver exactly its usage count. -/
def FairInv (G : List GiverEntry) (R : Nat) (st : BuildState) : Prop :=
  st.givers.map GiverEntry.acc = G.map GiverEntry.acc ∧
  st.usage.length = G.length ∧
  (∀ i, i < G.length → (st.givers.getD i default).remaining_today + st.usage.getD i 0 = R) ∧
  (∀ i k, i < G.length → k < G.length → st.usage.getD i 0 ≤ st.usage.getD k 0 + 1) ∧
  st.giver_idx < G.length ∧
  ((st.usage.getD st.giver_idx 0 = list_min st.usage ∧
      0 < (st.givers.getD st.giver_idx default).remaining_today) ∨
    (∀ g ∈ st.givers, g.remaining_today = 0)) ∧
  (∀ i, i < G.length → countGiver st.pairs ((G.getD i default).acc.name) = st.usage.getD i 0)


lemma getD_map_of_lt (l : List GiverEntry) (i : Nat) (h : i < l.length) :
    (l.map GiverEntry.acc).getD i default = (l.getD i default).acc := by
  rw [List.getD_eq_getElem _ _ (by simpa using h), List.getD_eq_getElem _ _ h]
  exact List.getElem_map _

lemma fair_step_core {G : List GiverEntry} {R : Nat}
    (hnd : (G.map (fun g => g.acc.name)).Nodup)
    (givers : List GiverEntry) (usage : List Nat) (j : Nat) (pairs : List PlanPair)
    (item : QItem)
    (hinv : FairInv G R ⟨givers, usage, j, pairs⟩)
    (hmin : usage.getD j 0 = list_min usage)
    (hrem : 0 < (givers.getD j default).remaining_today) :
    FairInv G R
      ⟨givers.set j { givers.getD j default with
          remaining_today := (givers.getD j default).remaining_today - 1 },
        usage.set j (usage.getD j 0 + 1),
        find_next_giver_idx
          (givers.set j { givers.getD j default with
            remaining_today := (givers.getD j default).remaining_today - 1 })
          j (usage.set j (usage.getD j 0 + 1)),
        pairs ++ [⟨(givers.getD j default).acc, item.receiver, item.action,
          pairs.length + 1, 0⟩]⟩ := by
  unfold FairInv at hinv ⊢
  obtain ⟨hacc, hulen, hlink, hpair, hidx, hptr, hcount⟩ := hinv
  dsimp only at hacc hulen hlink hpair hidx hptr hcount ⊢
  have hglen : givers.length = G.length := by
    have := congrArg List.length hacc
    simpa using this
  have hGpos : 0 < G.length := Nat.lt_of_le_of_lt (Nat.zero_le _) hidx
  have hjlen : j < givers.length := by omega
  have hmin_le : ∀ k, k < G.length → list_min usage ≤ usage.getD k 0 := by
    intro k hk
    exact list_min_le (getD_mem (by omega) 0)
  have hset_ne : givers.set j { givers.getD j default with
      remaining_today := (givers.getD j default).remaining_today - 1 } ≠ [] := by
    intro hc
    have h0 := congrArg List.length hc
    simp only [List.length_set, List.length_nil] at h0
    omega
  have hname_eq : ∀ i, i < G.length →
      (givers.getD i default).acc = (G.getD i default).acc := by
    intro i hi
    have hi2 : i < givers.length := by omega
    rw [← getD_map_of_lt givers i hi2, ← getD_map_of_lt G i hi, hacc]
  have hg2_self : (givers.set j { givers.getD j default with
      remaining_today := (givers.getD j default).remaining_today - 1 }).getD j default =
      { givers.getD j default with
        remaining_today := (givers.getD j default).remaining_today - 1 } :=
    getD_set_self _ _ _ _ hjlen
  have hg2_other : ∀ i, i ≠ j → (givers.set j { givers.getD j default with
      remaining_today := (givers.getD j default).remaining_today - 1 }).getD i default =
      givers.getD i default := by
    intro i hne
    exact getD_set_ne _ _ _ _ _ hne
  have hu2_self : (usage.set j (usage.getD j 0 + 1)).getD j 0 = usage.getD j 0 + 1 :=
    getD_set_self _ _ _ _ (by omega)
  have hu2_other : ∀ i, i ≠ j →
      (usage.set j (usage.getD j 0 + 1)).getD i 0 = usage.getD i 0 := by
    intro i hne
    exact getD_set_ne _ _ _ _ _ hne
  have hremj : 0 < (givers.getD j default).remaining_today := hrem
  -- the complementary-capacity law for the updated lists
  have hlink2 : ∀ i, i < G.length → ((givers.set j { givers.getD j default with
      remaining_today := (givers.getD j default).remaining_today - 1 }).getD i
        default).remaining_today + (usage.set j (usage.getD j 0 + 1)).getD i 0 = R := by
    intro i hi
    by_cases hij : i = j
    · subst hij
      rw [hg2_self, hu2_self]
      have hl := hlink i hi
      dsimp only
      omega
    · rw [hg2_other i hij, hu2_other i hij]
      exact hlink i hi
  refine ⟨?_, ?_, hlink2, ?_, ?_, ?_, ?_⟩
  · -- roster fields stable
    rw [List.map_set]
    have hmj : j < (givers.map GiverEntry.acc).length := by simpa using hjlen
    have hval : GiverEntry.acc { givers.getD j default with
        remaining_today := (givers.getD j default).remaining_today - 1 } =
        (givers.map GiverEntry.acc).getD j default := by
      show (givers.getD j default).acc = _
      rw [getD_map_of_lt givers j hjlen]
    rw [hval, List.getD_eq_getElem _ _ hmj, set_own_getElem _ _ hmj]
    exact hacc
  · simpa using hulen
  · -- pairwise balance
    intro i k hi hk
    by_cases hij : i = j <;> by_cases hkj : k = j
    · subst hij
      subst hkj
      omega
    · subst hij
      rw [hu2_self, hu2_other k hkj]
      have h1 := hmin_le k hk
      rw [← hmin] at h1
      omega
    · subst hkj
      rw [hu2_self, hu2_other i hij]
      have h1 := hpair i k hi (by omega)
      omega
    · rw [hu2_other i hij, hu2_other k hkj]
      exact hpair i k hi hk
  · -- pointer stays in range
    have hfl := find_next_lt (givers.set j { givers.getD j default with
        remaining_today := (givers.getD j default).remaining_today - 1 }) j
        (usage.set j (usage.getD j 0 + 1)) hset_ne
    simp only [List.length_set] at hfl
    omega
  · -- pointer invariant
    rcases find_next_spec (givers.set j { givers.getD j default with
        remaining_today := (givers.getD j default).remaining_today - 1 }) j
        (usage.set j (usage.getD j 0 + 1)) hset_ne with hgood | hnone
    · exact Or.inl hgood
    · right
      intro g hg
      simp only [List.length_set] at hnone
      have hall : ∀ k, k < G.length → ((givers.set j { givers.getD j default with
          remaining_today := (givers.getD j default).remaining_today - 1 }).getD k
            default).remaining_today = 0 := by
        intro k hk
        by_contra hpos
        have hposk : 0 < ((givers.set j { givers.getD j default with
            remaining_today := (givers.getD j default).remaining_today - 1 }).getD k
              default).remaining_today := Nat.pos_of_ne_zero hpos
        have hne2 : usage.set j (usage.getD j 0 + 1) ≠ [] := by
          intro hc
          have h0 := congrArg List.length hc
          simp only [List.length_set, List.length_nil] at h0
          omega
        have hminmem := list_min_mem hne2
        obtain ⟨k0, hk0, hk0v⟩ := List.mem_iff_getElem.mp hminmem
        have hk0len : k0 < G.length := by
          simp at hk0
          omega
        have hk0d : (usage.set j (usage.getD j 0 + 1)).getD k0 0 =
            list_min (usage.set j (usage.getD j 0 + 1)) := by
          rw [List.getD_eq_getElem _ _ hk0]
          exact hk0v
        by_cases hk0cap : 0 < ((givers.set j { givers.getD j default with
            remaining_today := (givers.getD j default).remaining_today - 1 }).getD k0
              default).remaining_today
        · exact hnone k0 (by omega) ⟨hk0d, hk0cap⟩
        · have husR : (usage.set j (usage.getD j 0 + 1)).getD k0 0 = R := by
            have := hlink2 k0 hk0len
            omega
          have hgeR : ∀ i, i < G.length →
              R ≤ (usage.set j (usage.getD j 0 + 1)).getD i 0 := by
            intro i hi
            have hmemi : (usage.set j (usage.getD j 0 + 1)).getD i 0 ∈
                usage.set j (usage.getD j 0 + 1) := by
              apply getD_mem
              simp
              omega
            have h2 := list_min_le hmemi
            rw [← hk0d] at h2
            omega
          have h3 := hlink2 k hk
          have h4 := hgeR k hk
          omega
      obtain ⟨ki, hki, hkiv⟩ := List.mem_iff_getElem.mp hg
      have hki2 : ki < G.length := by
        simp at hki
        omega
      have h5 := hall ki hki2
      rw [List.getD_eq_getElem _ _ hki] at h5
      rw [← hkiv]
      exact h5
  · -- plan counts match usage counters
    intro i hi
    unfold countGiver
    rw [List.countP_append]
    have hgname : (givers.getD j default).acc.name = (G.getD j default).acc.name := by
      rw [hname_eq j (by omega)]
    have hgname2 : (givers[j]?.getD default).acc.name = (G[j]?.getD default).acc.name := by
      simpa only [List.getD, List.get?_eq_getElem?] using hgname
    by_cases hij : i = j
    · subst hij
      rw [hu2_self]
      have hone : List.countP (fun p => p.giver.name == (G.getD i default).acc.name)
          ([⟨(givers.getD i default).acc, item.receiver, item.action,
            pairs.length + 1, 0⟩] : List PlanPair) = 1 := by
        simp [List.countP_cons, hgname, hgname2]
      rw [hone]
      have h6 := hcount i hi
      unfold countGiver at h6
      omega
    · rw [hu2_other i hij]
      have hnej : (G.getD j default).acc.name ≠ (G.getD i default).acc.name := by
        intro hc
        have hjG : j < G.length := by omega
        have hbj : j < (G.map (fun g => g.acc.name)).length := by simpa using hjG
        have hbi : i < (G.map (fun g => g.acc.name)).length := by simpa using hi
        rw [List.getD_eq_getElem _ _ hjG, List.getD_eq_getElem _ _ hi] at hc
        have h1 : (G.map (fun g => g.acc.name))[j] =
            (G.map (fun g => g.acc.name))[i] := by
          rw [List.getElem_map, List.getElem_map]
          exact hc
        have h2 := (List.Nodup.getElem_inj_iff hnd).mp h1
        exact hij h2.symm
      have hnej2 : ¬ (G[j]?.getD default).acc.name = (G[i]?.getD default).acc.name := by
        simpa only [List.getD, List.get?_eq_getElem?] using hnej
      have hzero : List.countP (fun p => p.giver.name == (G.getD i default).acc.name)
          ([⟨(givers.getD j default).acc, item.receiver, item.action,
            pairs.length + 1, 0⟩] : List PlanPair) = 0 := by
        simp [List.countP_cons, hgname2, hnej2]
      rw [hzero]
      have h7 := hcount i hi
      unfold countGiver at h7
      omega

lemma acc_eq_of_map_acc_eq {givers G : List GiverEntry}
    (hacc : givers.map GiverEntry.acc = G.map GiverEntry.acc)
    {i : Nat} (hi : i < G.length) (hi2 : i < givers.length) :
    (givers.getD i default).acc = (G.getD i default).acc := by
  rw [← getD_map_of_lt givers i hi2, ← getD_map_of_lt G i hi, hacc]

lemma names_eq_of_map_acc_eq {givers G : List GiverEntry}
    (hacc : givers.map GiverEntry.acc = G.map GiverEntry.acc) :
    givers.map (fun g => g.acc.name) = G.map (fun g => g.acc.name) := by
  have h2 := congrArg (List.map RosterAcc.name) hacc
  simpa [List.map_map, Function.comp] using h2

lemma build_step_fair {G : List GiverEntry} {R : Nat}
    (hnd : (G.map (fun g => g.acc.name)).Nodup)
    {st : BuildState} {item : QItem}
    (hdisj : ∀ g ∈ G, g.acc.name ≠ item.receiver.acc.name)
    (hinv : FairInv G R st) : FairInv G R (build_step st item) := by
  obtain ⟨st_g, st_u, st_i, st_p⟩ := st
  have hinv2 := hinv
  unfold FairInv at hinv2
  dsimp only at hinv2
  obtain ⟨hacc, hulen, hlink, hpair, hidx, hptr, hcount⟩ := hinv2
  have hglen : st_g.length = G.length := by
    have := congrArg List.length hacc
    simpa using this
  rcases hptr with ⟨hmin, hrem⟩ | hzero
  · have hjlen : st_i < st_g.length := by omega
    have hnamej : (st_g.getD st_i default).acc.name ≠ item.receiver.acc.name := by
      rw [acc_eq_of_map_acc_eq hacc hidx hjlen]
      exact hdisj _ (getD_mem hidx default)
    have hscan := scan_giver_idx_at_start hjlen hnamej hrem
    have hndst : (st_g.map (fun g => g.acc.name)).Nodup := by
      rw [names_eq_of_map_acc_eq hacc]
      exact hnd
    have hk : (st_g.set st_i { st_g.getD st_i default with
        remaining_today := (st_g.getD st_i default).remaining_today - 1 }).findIdx
          (fun x => x == { st_g.getD st_i default with
            remaining_today := (st_g.getD st_i default).remaining_today - 1 }) = st_i := by
      apply findIdx_set st_g st_i _ hndst hjlen
      show (st_g.getD st_i default).acc.name = st_g[st_i].acc.name
      rw [List.getD_eq_getElem _ _ hjlen]
    unfold build_step
    dsimp only
    rw [hscan]
    dsimp only
    rw [hk]
    exact fair_step_core hnd st_g st_u st_i st_p item hinv hmin hrem
  · have hscan := @scan_none_of_norem st_g item.receiver.acc.name st_i hzero
    unfold build_step
    dsimp only
    rw [hscan]
    exact hinv

lemma fair_init {G : List GiverEntry} {R : Nat} (hG : G ≠ [])
    (hR : ∀ g ∈ G, g.remaining_today = R) :
    FairInv G R ⟨G, List.replicate G.length 0, 0, []⟩ := by
  have hGpos : 0 < G.length := List.length_pos.mpr hG
  have hgetR : ∀ i, i < G.length → (G.getD i default).remaining_today = R := by
    intro i hi
    exact hR _ (getD_mem hi default)
  have hu0 : ∀ i, i < G.length → (List.replicate G.length (0 : Nat)).getD i 0 = 0 := by
    intro i hi
    exact getD_replicate_lt _ _ _ _ hi
  refine ⟨rfl, by simp, ?_, ?_, hGpos, ?_, ?_⟩
  · intro i hi
    rw [hu0 i hi, hgetR i hi]
    omega
  · intro i k hi hk
    rw [hu0 i hi, hu0 k hk]
    omega
  · have hmin0 : list_min (List.replicate G.length (0 : Nat)) = 0 := by
      apply Nat.le_antisymm
      · apply list_min_le
        have : (0 : Nat) ∈ List.replicate G.length 0 := by
          apply List.mem_replicate.mpr
          omega
        exact this
      · omega
    rcases Nat.eq_zero_or_pos R with hR0 | hRpos
    · right
      intro g hg
      rw [hR g hg, hR0]
    · left
      constructor
      · rw [hu0 0 hGpos, hmin0]
      · rw [hgetR 0 hGpos]
        exact hRpos
  · intro i hi
    rw [hu0 i hi]
    rfl

lemma build_fold_fair {G : List GiverEntry} {R : Nat}
    (hnd : (G.map (fun g => g.acc.name)).Nodup) (queue : List QItem) :
    ∀ st : BuildState,
      (∀ item ∈ queue, ∀ g ∈ G, g.acc.name ≠ item.receiver.acc.name) →
      FairInv G R st → FairInv G R (queue.foldl build_step st) := by
  induction queue with
  | nil => intro st _ h; exact h
  | cons q qs ih =>
    intro st hdisj h
    rw [List.foldl_cons]
    exact ih _ (fun item hi g hg => hdisj item (by simp [hi]) g hg)
      (build_step_fair hnd (fun g hg => hdisj q (by simp) g hg) h)

lemma build_pairs_fair {G : List GiverEntry} {R : Nat} (receivers : List NeedEntry)
    (max_actions : Nat)
    (hR : ∀ g ∈ G, g.remaining_today = R)
    (hnd : (G.map (fun g => g.acc.name)).Nodup)
    (hdisj : ∀ g ∈ G, ∀ r ∈ receivers, g.acc.name ≠ r.acc.name)
    {g1 g2 : GiverEntry} (hg1 : g1 ∈ G) (hg2 : g2 ∈ G) :
    countGiver (build_pairs_even G receivers max_actions) g1.acc.name ≤
      countGiver (build_pairs_even G receivers max_actions) g2.acc.name + 1 := by
  have hG : G ≠ [] := by
    intro hc
    rw [hc] at hg1
    cases hg1
  unfold build_pairs_even
  split_ifs with hempty
  · simp [countGiver]
  · dsimp only
    have hcmap : ∀ (l : List PlanPair) (t : Nat) (nm : String),
        countGiver (l.map (fun p => { p with total := t })) nm = countGiver l nm := by
      intro l t nm
      unfold countGiver
      rw [List.countP_map]
      rfl
    rw [hcmap, hcmap]
    have hinv := build_fold_fair (R := R) hnd (action_queue receivers max_actions)
      ⟨G, List.replicate G.length 0, 0, []⟩
      (fun item hi g hg => hdisj g hg item.receiver (queue_receiver_mem _ _ item hi))
      (fair_init hG hR)
    obtain ⟨hacc, hulen, hlink, hpair, hidx, hptr, hcount⟩ := hinv
    obtain ⟨i1, hi1, hv1⟩ := List.mem_iff_getElem.mp hg1
    obtain ⟨i2, hi2, hv2⟩ := List.mem_iff_getElem.mp hg2
    have hc1 := hcount i1 hi1
    have hc2 := hcount i2 hi2
    rw [List.getD_eq_getElem _ _ hi1, hv1] at hc1
    rw [List.getD_eq_getElem _ _ hi2, hv2] at hc2
    rw [hc1, hc2]
    exact hpair i1 i2 hi1 hi2

lemma countGiver_reindex (l : List PlanPair) (nm : String) :
    countGiver (reindex l) nm = countGiver l nm := by
  unfold reindex countGiver
  rw [List.countP_map]
  conv_rhs => rw [← List.enum_map_snd l]
  rw [List.countP_map]
  rfl

lemma countGiver_perm {l1 l2 : List PlanPair} (h : l1.Perm l2) (nm : String) :
    countGiver l1 nm = countGiver l2 nm :=
  h.countP_eq _

/-- C2 (amended).  The even-distribution guarantee of the smart
planner holds under one additional premise the original claim lacks:
no needing receiver may share a name with an available giver.  Under
equal `remaining_today` for all givers (and a queue of at least twice
the giver count, as in the original claim), the per-giver usage counts
of the produced plan then differ pairwise by at most 1, for every
shuffle that permutes its input. -/
theorem C2_fairness_even_distribution (shuffle : List PlanPair → List PlanPair)
    (hshuf : ∀ l, (shuffle l).Perm l)
    (s : StateMgr) (today : String) (accounts : List RosterAcc) (max_actions : Nat)
    (mgr : Option AccountMgr) (R : Nat)
    (hR : ∀ g ∈ (get_available_givers
        ((accounts.foldl (fun st a => st.ensure_account_exists a.name) s).save_if_dirty)
        today accounts mgr).2, g.remaining_today = R)
    (hnd : ((get_available_givers
        ((accounts.foldl (fun st a => st.ensure_account_exists a.name) s).save_if_dirty)
        today accounts mgr).2.map (fun g => g.acc.name)).Nodup)
    (hdisj : ∀ g ∈ (get_available_givers
        ((accounts.foldl (fun st a => st.ensure_account_exists a.name) s).save_if_dirty)
        today accounts mgr).2,
      ∀ r ∈ (get_accounts_needing_actions
        (get_available_givers
          ((accounts.foldl (fun st a => st.ensure_account_exists a.name) s).save_if_dirty)
          today accounts mgr).1 accounts mgr).2,
      g.acc.name ≠ r.acc.name)
    (hlen : 2 * (get_available_givers
        ((accounts.foldl (fun st a => st.ensure_account_exists a.name) s).save_if_dirty)
        today accounts mgr).2.length ≤
      (action_queue (get_accounts_needing_actions
        (get_available_givers
          ((accounts.foldl (fun st a => st.ensure_account_exists a.name) s).save_if_dirty)
          today accounts mgr).1 accounts mgr).2 max_actions).length)
    {g1 g2 : GiverEntry}
    (hg1 : g1 ∈ (get_available_givers
        ((accounts.foldl (fun st a => st.ensure_account_exists a.name) s).save_if_dirty)
        today accounts mgr).2)
    (hg2 : g2 ∈ (get_available_givers
        ((accounts.foldl (fun st a => st.ensure_account_exists a.name) s).save_if_dirty)
        today accounts mgr).2) :
    countGiver (get_optimal_pairs shuffle s today accounts max_actions mgr).2 g1.acc.name ≤
      countGiver (get_optimal_pairs shuffle s today accounts max_actions mgr).2 g2.acc.name
        + 1 := by
  unfold get_optimal_pairs
  dsimp only
  split_ifs with h1 h2
  · rw [List.isEmpty_iff] at h1
    rw [h1] at hg1
    cases hg1
  · simp [countGiver]
  · rw [countGiver_reindex, countGiver_reindex,
      countGiver_perm (hshuf _), countGiver_perm (hshuf _)]
    exact build_pairs_fair _ max_actions hR hnd hdisj hg1 hg2

/-- Roster of the disjoint fairness scenario: `a` and `b` give, `x`
and `y` receive. -/
def c2wroster : List RosterAcc :=
  [{ name := "a", adspower_id := "1" }, { name := "b", adspower_id := "2" },
   { name := "x", adspower_id := "3" }, { name := "y", adspower_id := "4" }]

/-- State of the disjoint fairness scenario: `a` and `b` have met both
targets (so they never enter the needing list) and have full capacity;
`x` and `y` need everything but have exhausted their daily limit. -/
def c2wstate : StateMgr :=
  { accounts := [("a", c2progB), ("b", c2progB), ("x", c2progX), ("y", c2progX)]
    daily_stats := []
    settings := c2settings
    dirty := false }

/-- The state `get_optimal_pairs` holds when it computes the available
givers in the disjoint scenario. -/
def c2ws2 : StateMgr :=
  ((c2wroster.foldl (fun st a => st.ensure_account_exists a.name) c2wstate).save_if_dirty)

/-- Witness for the amended C2: in the disjoint scenario both givers
have remaining capacity 5 and the plan uses them evenly. -/
theorem C2_fairness_even_distribution_witness :
    (∀ g ∈ (get_available_givers c2ws2 "2026-10-12" c2wroster none).2,
      g.remaining_today = 5) ∧
    countGiver (get_optimal_pairs id c2wstate "2026-10-12" c2wroster 10 none).2 "a" ≤
      countGiver (get_optimal_pairs id c2wstate "2026-10-12" c2wroster 10 none).2 "b"
        + 1 :=
  ⟨by decide,
    @C2_fairness_even_distribution id (fun l => List.Perm.refl l) c2wstate
      "2026-10-12" c2wroster 10 none 5 (by decide) (by decide) (by decide) (by decide)
      ⟨{ name := "a", adspower_id := "1" }, 5⟩ ⟨{ name := "b", adspower_id := "2" }, 5⟩
      (by decide) (by decide)⟩
